import Mathlib

/-
Verification development for the sremail library (address parsing, MIME
header validation and normalization, message construction, SMTP batching).

The Python sources embedded here are src/sremail/address.py,
src/sremail/message.py and src/sremail/smtp.py, together with the parts of
their external collaborators that the library's behaviour depends on:
the CPython email package (email.utils.parseaddr / formataddr,
email.utils.format_datetime, email.utils.parsedate_to_datetime and the
cursor parser email._parseaddr.AddrlistClass they delegate to) and the
marshmallow 3 schema machinery used by MessageHeadersSchema (field
serialization, load-time validation with unknown=INCLUDE, the
validates_schema hook with its default skip_on_field_errors=True, and the
pre_dump / post_dump hooks).

Python strings are modelled as List Char inside parsers and String at API
boundaries; Python dicts as insertion-ordered association lists; raised
exceptions as Except / Option results; Python object identity (used by the
default equality of email.message objects) as an oid field.
-/

set_option maxRecDepth 8000

/-! ## Python string primitives -/

/-- Python str.split with a one-character separator: cuts at every
occurrence of the separator and keeps empty pieces, so the result always
has one more piece than there are separators. -/
def pySplitChar (sep : Char) : List Char → List (List Char)
  | [] => [[]]
  | c :: cs =>
    match pySplitChar sep cs with
    | [] => [[]]
    | h :: t => if c = sep then [] :: h :: t else (c :: h) :: t

/-- Python str.title restricted to ASCII, as used on header key pieces: a
letter is uppercased when the previous character is not a letter and
lowercased otherwise; other characters pass through and reset the state. -/
def pyTitleAux : Bool → List Char → List Char
  | _, [] => []
  | prev, c :: cs =>
    if c.isAlpha then (if prev then c.toLower else c.toUpper) :: pyTitleAux true cs
    else c :: pyTitleAux false cs

def pyTitle (l : List Char) : List Char := pyTitleAux false l

/-- message.py mime_headerize: convert a snake_cased string into a MIME
header key by splitting on underscores, title-casing each piece and
joining with hyphens (reply_to becomes Reply-To). -/
def mime_headerize (s : String) : String :=
  String.intercalate "-" (((pySplitChar '_' s.toList).map pyTitle).map List.asString)

/-- Python os.path.basename for POSIX paths: the substring after the last
slash, the whole string when there is no slash (posixpath computes it as
p drop rfind-of-slash plus one). -/
def pyBasename (l : List Char) : List Char :=
  (l.reverse.takeWhile (fun c => c ≠ '/')).reverse

/-! ## email._parseaddr: the cursor parser behind email.utils.parseaddr

The AddrlistClass methods walk the field with a position index; here the
field suffix from the current position onward is carried directly (rem),
together with the mutable commentlist.  Position resets in getaddress are
restores of an earlier suffix.  While loops become fuel recursion; every
call inside the parser family decrements the fuel once, and the top level
supplies far more fuel than the deepest possible call chain, so the
fuel-exhausted branches are never reached on actual inputs. -/

structure AState where
  rem : List Char
  commentlist : List (List Char)
deriving DecidableEq, Repr

/-- Python self.specials of AddrlistClass. -/
def specialsChars : List Char :=
  ['(', ')', '<', '>', '@', ',', ':', ';', '.', '"', '[', ']']

/-- Python self.LWS. -/
def lwsChars : List Char := [' ', '\t']

/-- Python self.FWS = LWS + CR. -/
def fwsChars : List Char := [' ', '\t', '\r', '\n']

/-- Python self.atomends = specials + LWS + CR. -/
def atomendsChars : List Char := specialsChars ++ [' ', '\t', '\r', '\n']

/-- Python self.phraseends: atomends with the dot removed (dots are legal
in obsolete phrases). -/
def phraseendsChars : List Char :=
  (specialsChars.filter (fun c => c ≠ '.')) ++ [' ', '\t', '\r', '\n']

/-- Python whitespace as stripped by str.strip with no arguments. -/
def pyIsSpace (c : Char) : Bool :=
  c = ' ' ∨ c = '\t' ∨ c = '\n' ∨ c = '\r' ∨ c = Char.ofNat 11 ∨ c = Char.ofNat 12

/-- Python `not s.strip()`: the string has no non-whitespace character. -/
def pyAllWs (l : List Char) : Bool := l.all pyIsSpace

/-- email._parseaddr.quote: double every backslash, then escape every
double quote (one pass per character is equivalent to the two replaces). -/
def pyQuoteEsc : List Char → List Char
  | [] => []
  | c :: cs =>
    (if c = '\\' then ['\\', '\\'] else if c = '"' then ['\\', '"'] else [c]) ++ pyQuoteEsc cs

/-- AddrlistClass.getatom: consume characters until one of the given end
delimiters (or the end of the field); returns the atom and the rest. -/
def getatom (ends : List Char) : List Char → List Char × List Char
  | [] => ([], [])
  | c :: cs =>
    if c ∈ ends then ([], c :: cs)
    else
      let r := getatom ends cs
      (c :: r.1, r.2)

/-- SPACE.join on fragments modelled as character lists. -/
def joinSp : List (List Char) → List Char
  | [] => []
  | [a] => a
  | a :: rest => a ++ ' ' :: joinSp rest

/-- A join with dots, used to describe dotted atoms of an addr-spec. -/
def dotJoin : List (List Char) → List Char
  | [] => []
  | [a] => a
  | a :: rest => a ++ '.' :: dotJoin rest

mutual

/-- AddrlistClass.getdelimited: a fragment between beginchar and one of
endchars, backslash escaping the next character, optionally swallowing
nested comments into the fragment.  When the current character is not
beginchar Python returns the empty string (callers always check first). -/
def getdelimited (fuel : Nat) (beginchar : Char) (endchars : List Char)
    (allowcomments : Bool) (st : AState) : List Char × AState :=
  match fuel with
  | 0 => ([], st)
  | fuel + 1 =>
    match st.rem with
    | [] => ([], st)
    | c :: cs =>
      if c ≠ beginchar then ([], st)
      else delimLoop fuel endchars allowcomments false [] ⟨cs, st.commentlist⟩

/-- The while loop of getdelimited (quote is the backslash flag). -/
def delimLoop (fuel : Nat) (endchars : List Char) (allowcomments : Bool)
    (quote : Bool) (acc : List Char) (st : AState) : List Char × AState :=
  match fuel with
  | 0 => (acc, st)
  | fuel + 1 =>
    match st.rem with
    | [] => (acc, st)
    | c :: cs =>
      if quote then delimLoop fuel endchars allowcomments false (acc ++ [c]) ⟨cs, st.commentlist⟩
      else if c ∈ endchars then (acc, ⟨cs, st.commentlist⟩)
      else if allowcomments ∧ c = '(' then
        let r := getdelimited fuel '(' [')', '\r'] true st
        delimLoop fuel endchars allowcomments false (acc ++ r.1) r.2
      else if c = '\\' then delimLoop fuel endchars allowcomments true acc ⟨cs, st.commentlist⟩
      else delimLoop fuel endchars allowcomments false (acc ++ [c]) ⟨cs, st.commentlist⟩

end

/-- AddrlistClass.getquote. -/
def getquote (fuel : Nat) (st : AState) : List Char × AState :=
  getdelimited fuel '"' ['"', '\r'] false st

/-- AddrlistClass.getcomment. -/
def getcomment (fuel : Nat) (st : AState) : List Char × AState :=
  getdelimited fuel '(' [')', '\r'] true st

/-- AddrlistClass.getdomainliteral (brackets re-attached by the caller
pattern of the Python format string). -/
def getdomainliteral (fuel : Nat) (st : AState) : List Char × AState :=
  let r := getdelimited fuel '[' [']', '\r'] false st
  ('[' :: r.1 ++ [']'], r.2)

/-- AddrlistClass.gotonext: skip whitespace, collecting only the LWS
characters, and absorb comments into the commentlist. -/
def gotonext (fuel : Nat) (st : AState) : List Char × AState :=
  match fuel with
  | 0 => ([], st)
  | fuel + 1 =>
    match st.rem with
    | [] => ([], st)
    | c :: cs =>
      if c ∈ fwsChars then
        let r := gotonext fuel ⟨cs, st.commentlist⟩
        (if c ∈ ['\n', '\r'] then r.1 else c :: r.1, r.2)
      else if c = '(' then
        let r := getcomment fuel st
        gotonext fuel ⟨r.2.rem, r.2.commentlist ++ [r.1]⟩
      else ([], st)

/-- AddrlistClass.getphraselist: a sequence of atoms or quoted fragments
separated by folding whitespace, stopping at a phrase delimiter. -/
def getphraselist (fuel : Nat) (st : AState) : List (List Char) × AState :=
  match fuel with
  | 0 => ([], st)
  | fuel + 1 =>
    match st.rem with
    | [] => ([], st)
    | c :: cs =>
      if c ∈ fwsChars then getphraselist fuel ⟨cs, st.commentlist⟩
      else if c = '"' then
        let q := getquote fuel st
        let ps := getphraselist fuel q.2
        (q.1 :: ps.1, ps.2)
      else if c = '(' then
        let cm := getcomment fuel st
        getphraselist fuel ⟨cm.2.rem, cm.2.commentlist ++ [cm.1]⟩
      else if c ∈ phraseendsChars then ([], st)
      else
        let a := getatom phraseendsChars st.rem
        let ps := getphraselist fuel ⟨a.2, st.commentlist⟩
        (a.1 :: ps.1, ps.2)

/-- The while loop of AddrlistClass.getdomain, with the accumulated
domain fragments; the at-sign guard discards everything (bpo-34155). -/
def getdomainAux (fuel : Nat) (acc : List Char) (st : AState) : List Char × AState :=
  match fuel with
  | 0 => (acc, st)
  | fuel + 1 =>
    match st.rem with
    | [] => (acc, st)
    | c :: cs =>
      if c ∈ lwsChars then getdomainAux fuel acc ⟨cs, st.commentlist⟩
      else if c = '(' then
        let cm := getcomment fuel st
        getdomainAux fuel acc ⟨cm.2.rem, cm.2.commentlist ++ [cm.1]⟩
      else if c = '[' then
        let dl := getdomainliteral fuel st
        getdomainAux fuel (acc ++ dl.1) dl.2
      else if c = '.' then getdomainAux fuel (acc ++ ['.']) ⟨cs, st.commentlist⟩
      else if c = '@' then ([], st)
      else if c ∈ atomendsChars then (acc, st)
      else
        let a := getatom atomendsChars st.rem
        getdomainAux fuel (acc ++ a.1) ⟨a.2, st.commentlist⟩

/-- AddrlistClass.getdomain. -/
def getdomain (fuel : Nat) (st : AState) : List Char × AState :=
  getdomainAux fuel [] st

/-- The while loop of AddrlistClass.getaddrspec over the local part: an
entry of aslist per atom, dot, quoted fragment or preserved whitespace
run; a trailing all-whitespace entry is dropped before a dot or a break. -/
def getaddrspecLoop (fuel : Nat) (aslist : List (List Char)) (st : AState) :
    List (List Char) × AState :=
  match fuel with
  | 0 => (aslist, st)
  | fuel + 1 =>
    match st.rem with
    | [] => (aslist, st)
    | c :: cs =>
      if c = '.' then
        let asPopped := if aslist ≠ [] ∧ pyAllWs (aslist.getLastD []) then aslist.dropLast else aslist
        let w := gotonext fuel ⟨cs, st.commentlist⟩
        getaddrspecLoop fuel (asPopped ++ [['.']]) w.2
      else if c = '"' then
        let q := getquote fuel st
        let w := gotonext fuel q.2
        getaddrspecLoop fuel
          ((aslist ++ [['"'] ++ pyQuoteEsc q.1 ++ ['"']]) ++ if w.1 ≠ [] then [w.1] else []) w.2
      else if c ∈ atomendsChars then
        (if aslist ≠ [] ∧ pyAllWs (aslist.getLastD []) then aslist.dropLast else aslist, st)
      else
        let a := getatom atomendsChars st.rem
        let w := gotonext fuel ⟨a.2, st.commentlist⟩
        getaddrspecLoop fuel ((aslist ++ [a.1]) ++ if w.1 ≠ [] then [w.1] else []) w.2

/-- AddrlistClass.getaddrspec: local part, then the at sign and domain;
an empty parsed domain empties the whole addrspec. -/
def getaddrspec (fuel : Nat) (st : AState) : List Char × AState :=
  let g0 := gotonext fuel st
  let asl := getaddrspecLoop fuel [] g0.2
  match asl.2.rem with
  | '@' :: cs =>
    let g2 := gotonext fuel ⟨cs, asl.2.commentlist⟩
    let dom := getdomain fuel g2.2
    if dom.1 = [] then ([], dom.2)
    else (asl.1.flatten ++ '@' :: dom.1, dom.2)
  | _ => (asl.1.flatten, asl.2)

/-- The while loop of AddrlistClass.getrouteaddr after the opening angle
bracket: route domains are skipped, the addrspec ends the loop with one
extra position step past the closing angle bracket. -/
def routeLoop (fuel : Nat) (expectroute : Bool) (adlist : List Char) (st : AState) :
    List Char × AState :=
  match fuel with
  | 0 => (adlist, st)
  | fuel + 1 =>
    match st.rem with
    | [] => (adlist, st)
    | c :: cs =>
      if expectroute then
        let d := getdomain fuel st
        let g := gotonext fuel d.2
        routeLoop fuel false adlist g.2
      else if c = '>' then (adlist, ⟨cs, st.commentlist⟩)
      else if c = '@' then
        let g := gotonext fuel ⟨cs, st.commentlist⟩
        routeLoop fuel true adlist g.2
      else if c = ':' then
        let g := gotonext fuel ⟨cs, st.commentlist⟩
        routeLoop fuel false adlist g.2
      else
        let asp := getaddrspec fuel st
        (asp.1, ⟨asp.2.rem.drop 1, asp.2.commentlist⟩)

/-- AddrlistClass.getrouteaddr (callers only call it on an opening angle
bracket; Python returns None otherwise). -/
def getrouteaddr (fuel : Nat) (st : AState) : List Char × AState :=
  match st.rem with
  | '<' :: cs =>
    let g := gotonext fuel ⟨cs, st.commentlist⟩
    routeLoop fuel false [] g.2
  | _ => ([], st)

mutual

/-- AddrlistClass.getaddress: one address, as a list of (realname,
addrspec) pairs (a group contributes several).  The commentlist is reset
on entry; a phrase followed by a dot or an at sign restores the state
saved right after the first whitespace skip and reparses as a bare
addrspec. -/
def getaddress (fuel : Nat) (st : AState) : List (List Char × List Char) × AState :=
  match fuel with
  | 0 => ([], st)
  | fuel + 1 =>
    let g1 := gotonext fuel ⟨st.rem, []⟩
    let old := g1.2
    let ph := getphraselist fuel g1.2
    let plist := ph.1
    let g3 := gotonext fuel ph.2
    let st3 := g3.2
    match st3.rem with
    | [] =>
      let rl := match plist with
        | [] => []
        | p :: _ => [(joinSp st3.commentlist, p)]
      addressEnd fuel rl st3
    | c :: cs =>
      if c = '.' ∨ c = '@' then
        let asp := getaddrspec fuel old
        addressEnd fuel [(joinSp asp.2.commentlist, asp.1)] asp.2
      else if c = ':' then
        let gr := groupLoop fuel [] ⟨cs, st3.commentlist⟩
        addressEnd fuel gr.1 gr.2
      else if c = '<' then
        let ra := getrouteaddr fuel st3
        let rl :=
          if ra.2.commentlist ≠ [] then
            [(joinSp plist ++ ' ' :: '(' :: joinSp ra.2.commentlist ++ [')'], ra.1)]
          else [(joinSp plist, ra.1)]
        addressEnd fuel rl ra.2
      else
        match plist with
        | p :: _ => addressEnd fuel [(joinSp st3.commentlist, p)] st3
        | [] =>
          if c ∈ specialsChars then addressEnd fuel [] ⟨cs, st3.commentlist⟩
          else addressEnd fuel [] st3

/-- The tail of getaddress: a final whitespace skip and an optional comma
step. -/
def addressEnd (fuel : Nat) (rl : List (List Char × List Char)) (st : AState) :
    List (List Char × List Char) × AState :=
  match fuel with
  | 0 => (rl, st)
  | fuel + 1 =>
    let g := gotonext fuel st
    match g.2.rem with
    | ',' :: cs => (rl, ⟨cs, g.2.commentlist⟩)
    | _ => (rl, g.2)

/-- The while loop of the group branch of getaddress. -/
def groupLoop (fuel : Nat) (acc : List (List Char × List Char)) (st : AState) :
    List (List Char × List Char) × AState :=
  match fuel with
  | 0 => (acc, st)
  | fuel + 1 =>
    match st.rem with
    | [] => (acc, st)
    | _ :: _ =>
      let g := gotonext fuel st
      match g.2.rem with
      | ';' :: cs => (acc, ⟨cs, g.2.commentlist⟩)
      | _ =>
        let ad := getaddress fuel g.2
        groupLoop fuel (acc ++ ad.1) ad.2

end

/-- AddrlistClass.getaddrlist: all addresses of the field; an address
that parses to nothing contributes an empty pair. -/
def getaddrlistLoop (fuel : Nat) (acc : List (List Char × List Char)) (st : AState) :
    List (List Char × List Char) × AState :=
  match fuel with
  | 0 => (acc, st)
  | fuel + 1 =>
    match st.rem with
    | [] => (acc, st)
    | _ :: _ =>
      let ad := getaddress fuel st
      getaddrlistLoop fuel (acc ++ if ad.1 = [] then [([], [])] else ad.1) ad.2

/-- Generous fuel for a field: far more than the deepest call chain the
parser can make on it (each call consumes fuel once and loops consume at
least one character per iteration). -/
def parseFuel (l : List Char) : Nat := 4 * l.length + 64

/-- email.utils.parseaddr: first parsed (realname, email) pair of the
field, or a pair of empty strings. -/
def parseaddr (s : String) : String × String :=
  let addrs := (getaddrlistLoop (parseFuel s.toList) [] ⟨s.toList, []⟩).1
  match addrs with
  | [] => ("", "")
  | (n, e) :: _ => (n.asString, e.asString)

/-- Uncaught Python exceptions escaping formataddr and the schema
machinery. -/
inductive PyCrash
  | typeError
  | attributeError
  | unicodeEncodeError
deriving DecidableEq, Repr

/-- email.utils.specialsre: characters that force quoting of a display
name in formataddr. -/
def formataddrSpecials : List Char :=
  [']', '[', '\\', '(', ')', '<', '>', '@', ',', ':', ';', '"', '.']

/-- email.utils.escapesre replacement: backslash-escape backslashes and
double quotes of the name. -/
def escapeName : List Char → List Char
  | [] => []
  | c :: cs => (if c = '\\' ∨ c = '"' then ['\\', c] else [c]) ++ escapeName cs

/-- Python str.encode("ascii") succeeds exactly on code points below
128. -/
def pyIsAscii (s : String) : Bool := s.toList.all (fun c => c.toNat < 128)

/-- The UTF-8 bytes of one code point, as str.encode("utf-8") emits
them. -/
def utf8Bytes (c : Char) : List Nat :=
  let n := c.toNat
  if n < 128 then [n]
  else if n < 2048 then [192 + n / 64, 128 + n % 64]
  else if n < 65536 then [224 + n / 4096, 128 + (n / 64) % 64, 128 + n % 64]
  else [240 + n / 262144, 128 + (n / 4096) % 64, 128 + (n / 64) % 64, 128 + n % 64]

/-- str.encode("utf-8") over a whole string. -/
def encodeUtf8 (s : String) : List Nat := (s.toList.map utf8Bytes).flatten

/-- The base64 alphabet, indexed by a 6-bit value. -/
def b64Char (n : Nat) : Char :=
  "ABCDEFGHIJKLMNOPQRSTUVWXYZabcdefghijklmnopqrstuvwxyz0123456789+/".toList.getD n (Char.ofNat 65)

/-- base64.b64encode: three bytes per four output characters, the final
partial group padded with equals signs. -/
def b64Encode : List Nat → List Char
  | [] => []
  | [b1] => [b64Char (b1 / 4), b64Char (b1 % 4 * 16), '=', '=']
  | [b1, b2] => [b64Char (b1 / 4), b64Char (b1 % 4 * 16 + b2 / 16), b64Char (b2 % 16 * 4), '=']
  | b1 :: b2 :: b3 :: rest =>
    b64Char (b1 / 4) :: b64Char (b1 % 4 * 16 + b2 / 16) ::
      b64Char (b2 % 16 * 4 + b3 / 64) :: b64Char (b3 % 64) :: b64Encode rest

/-- email.base64mime.header_length: four bytes out for each three bytes
in, or nonzero fraction thereof. -/
def b64HeaderLength (bs : List Nat) : Nat :=
  bs.length / 3 * 4 + (if bs.length % 3 = 0 then 0 else 4)

/-- The octets _QUOPRI_HEADER_MAP keeps literal: the bytes of -!*+/ and
ascii letters and digits (the space, mapped to an underscore, also stays
one character long). -/
def quopriSafe (b : Nat) : Bool :=
  decide (b = 45 ∨ b = 33 ∨ b = 42 ∨ b = 43 ∨ b = 47 ∨
    (65 ≤ b ∧ b ≤ 90) ∨ (97 ≤ b ∧ b ≤ 122) ∨ (48 ≤ b ∧ b ≤ 57))

/-- email.quoprimime.header_length: the summed lengths of the octet
expansions of _QUOPRI_HEADER_MAP. -/
def qpHeaderLength (bs : List Nat) : Nat :=
  (bs.map (fun b => if quopriSafe b ∨ b = 32 then 1 else 3)).sum

def hexUpper (n : Nat) : Char := "0123456789ABCDEF".toList.getD n (Char.ofNat 48)

/-- One octet through _QUOPRI_HEADER_MAP: safe octets stay themselves, a
space becomes an underscore, the rest expand to =XX in uppercase hex. -/
def quopriHeaderByte (b : Nat) : List Char :=
  if quopriSafe b then [Char.ofNat b]
  else if b = 32 then ['_']
  else ['=', hexUpper (b / 16), hexUpper (b % 16)]

/-- email.quoprimime.header_encode with the utf-8 charset label: empty
input gives the empty string, else the translated octets inside the RFC
2047 chrome. -/
def qpHeaderEncode (bs : List Nat) : String :=
  if bs = [] then ""
  else ("=?utf-8?q?".toList ++ (bs.map quopriHeaderByte).flatten ++ "?=".toList).asString

/-- email.base64mime.header_encode with the utf-8 charset label. -/
def b64HeaderEncode (bs : List Nat) : String :=
  if bs = [] then ""
  else ("=?utf-8?b?".toList ++ b64Encode bs ++ "?=".toList).asString

/-- Charset("utf-8").header_encode: utf-8 declares the SHORTEST header
encoding, so _get_encoder compares the two header lengths and picks
base64 only when it is strictly shorter than quoted-printable. -/
def headerEncodeUtf8 (name : String) : String :=
  let bs := encodeUtf8 name
  if b64HeaderLength bs < qpHeaderLength bs then b64HeaderEncode bs
  else qpHeaderEncode bs

/-- email.utils.formataddr with its default utf-8 charset: the address
must encode to ascii (a UnicodeEncodeError otherwise); a truthy name
that does not is RFC 2047 header-encoded through Charset("utf-8"); a
truthy ascii name is quoted when it contains a special of specialsre,
with backslashes and double quotes escaped; a falsy name yields the bare
address. -/
def formataddr (name email : String) : Except PyCrash String :=
  if ¬ pyIsAscii email then .error .unicodeEncodeError
  else if name = "" then .ok email
  else if ¬ pyIsAscii name then .ok (headerEncodeUtf8 name ++ " <" ++ email ++ ">")
  else
    let quotes : List Char := if name.toList.any (fun c => c ∈ formataddrSpecials) then ['"'] else []
    .ok ((quotes ++ escapeName name.toList ++ quotes).asString ++ " <" ++ email ++ ">")

/-! ## sremail.address.Address -/

structure Address where
  name : String
  email : String
deriving DecidableEq, Repr

/-- Address.__init__ (src/sremail/address.py): parseaddr the string, then
reject when both parts are empty or when the email part has no at sign;
ValueError is modelled as the error case. -/
def Address.init (addr_str : String) : Except String Address :=
  let (name, email) := parseaddr addr_str
  if name = "" ∧ email = "" then .error "Bad address given"
  else if '@' ∉ email.toList then .error "Email was not an email address"
  else .ok ⟨name, email⟩

/-- Address.__str__: formataddr of the pair (raising when formataddr
raises). -/
def Address.str (a : Address) : Except PyCrash String := formataddr a.name a.email

/-! ## Python datetime and the RFC 2822 date functions of email.utils

Used by the marshmallow DateTime field with format rfc: serialization is
email.utils.format_datetime, deserialization email.utils.parsedate_to_datetime. -/

/-- A Python datetime.datetime without microseconds (format_datetime
ignores them and parsing always produces zero); tz is the utcoffset in
seconds, none for a naive datetime. -/
structure PyDateTime where
  year : Nat
  month : Nat
  day : Nat
  hour : Nat
  minute : Nat
  second : Nat
  tz : Option Int
deriving DecidableEq, Repr

def isLeapYear (y : Nat) : Bool := (y % 4 = 0 ∧ y % 100 ≠ 0) ∨ y % 400 = 0

def daysInMonth (y m : Nat) : Nat :=
  if m = 2 then (if isLeapYear y then 29 else 28)
  else if m ∈ [4, 6, 9, 11] then 30 else 31

/-- The datetime.datetime constructor range checks (MINYEAR 1, MAXYEAR
9999; the timezone constructor additionally requires an offset strictly
within one day); out of range raises ValueError, modelled as none. -/
def tzInRange : Option Int → Bool
  | none => true
  | some v => -86400 < v ∧ v < 86400

def datetimeNew (y mo d h mi s : Int) (tz : Option Int) : Option PyDateTime :=
  if 1 ≤ y ∧ y ≤ 9999 ∧ 1 ≤ mo ∧ mo ≤ 12 ∧ 1 ≤ d ∧ d ≤ (daysInMonth y.toNat mo.toNat : Int) ∧
     0 ≤ h ∧ h ≤ 23 ∧ 0 ≤ mi ∧ mi ≤ 59 ∧ 0 ≤ s ∧ s ≤ 59 ∧ tzInRange tz then
    some ⟨y.toNat, mo.toNat, d.toNat, h.toNat, mi.toNat, s.toNat, tz⟩
  else none

/-- Leading zero padding of the percent-02d and percent-04d conversions. -/
def padNum (w n : Nat) : String :=
  let s := toString n
  (List.replicate (w - s.length) '0').asString ++ s

/-- tm_wday of timetuple: day of week with Monday as zero (Sakamoto's
congruence shifted from the Sunday-zero convention). -/
def dayIdxMon0 (y m d : Nat) : Nat :=
  let t := [0, 3, 2, 5, 0, 3, 5, 1, 4, 6, 2, 4]
  let y2 := if m < 3 then y - 1 else y
  (y2 + y2 / 4 - y2 / 100 + y2 / 400 + t.getD (m - 1) 0 + d + 6) % 7

def dayAbbrevs : List String := ["Mon", "Tue", "Wed", "Thu", "Fri", "Sat", "Sun"]

def monthAbbrevs : List String :=
  ["Jan", "Feb", "Mar", "Apr", "May", "Jun", "Jul", "Aug", "Sep", "Oct", "Nov", "Dec"]

/-- The strftime percent-z conversion of an aware datetime built from a
utcoffset of v seconds. -/
def strftimeZ (v : Int) : String :=
  let sign := if v < 0 then "-" else "+"
  let a := (if v < 0 then -v else v).toNat
  sign ++ padNum 2 (a / 3600) ++ padNum 2 ((a % 3600) / 60) ++
    (if a % 60 ≠ 0 then padNum 2 (a % 60) else "")

/-- email.utils.format_datetime: the RFC 2822 textual form, with zone
-0000 for a naive datetime and the numeric utcoffset otherwise. -/
def format_datetime (dt : PyDateTime) : String :=
  let zone := match dt.tz with
    | none => "-0000"
    | some v => strftimeZ v
  (dayAbbrevs.getD (dayIdxMon0 dt.year dt.month dt.day) "") ++ ", " ++
    padNum 2 dt.day ++ " " ++ (monthAbbrevs.getD (dt.month - 1) "") ++ " " ++
    padNum 4 dt.year ++ " " ++ padNum 2 dt.hour ++ ":" ++ padNum 2 dt.minute ++ ":" ++
    padNum 2 dt.second ++ " " ++ zone

/-- Python str.split with no argument: split on runs of whitespace,
never producing empty tokens. -/
def pySplitWsAux : Nat → List Char → List (List Char)
  | 0, _ => []
  | fuel + 1, l =>
    match l.dropWhile (fun c => pyIsSpace c) with
    | [] => []
    | c :: cs =>
      ((c :: cs).takeWhile (fun x => ¬ pyIsSpace x)) ::
        pySplitWsAux fuel ((c :: cs).dropWhile (fun x => ¬ pyIsSpace x))

def pySplitWs (l : List Char) : List (List Char) := pySplitWsAux (l.length + 1) l

/-- Python int() on a string: optional surrounding whitespace, optional
sign, at least one digit (the underscore digit grouping never occurs in
the inputs handled here). -/
def natDigits : List Char → Option Nat
  | [] => none
  | ds => if ds.all Char.isDigit then some (ds.foldl (fun a c => a * 10 + (c.toNat - 48)) 0) else none

def pyInt (l : List Char) : Option Int :=
  let l2 := ((l.dropWhile pyIsSpace).reverse.dropWhile pyIsSpace).reverse
  match l2 with
  | '+' :: ds => (natDigits ds).map (fun n => (n : Int))
  | '-' :: ds => (natDigits ds).map (fun n => -(n : Int))
  | ds => (natDigits ds).map (fun n => (n : Int))

def pyDayNames : List (List Char) :=
  (["mon", "tue", "wed", "thu", "fri", "sat", "sun"] : List String).map String.toList

def pyMonthNames : List (List Char) :=
  (["jan", "feb", "mar", "apr", "may", "jun", "jul", "aug", "sep", "oct", "nov", "dec",
    "january", "february", "march", "april", "may", "june", "july",
    "august", "september", "october", "november", "december"] : List String).map String.toList

def pyTimezones : List (List Char × Int) :=
  [("UT", 0), ("UTC", 0), ("GMT", 0), ("Z", 0),
   ("AST", -400), ("ADT", -300), ("EST", -500), ("EDT", -400),
   ("CST", -600), ("CDT", -500), ("MST", -700), ("MDT", -600),
   ("PST", -800), ("PDT", -700)].map (fun p => (String.toList p.1, p.2))

/-- Substring after the last occurrence of a character (the whole string
when absent), matching token drop rfind plus one. -/
def afterLastChar (sep : Char) (l : List Char) : List Char :=
  (l.reverse.takeWhile (fun c => c ≠ sep)).reverse

/-- email._parseaddr._parsedate_tz: tokenize the date string and recover
(year, month, day, hour, minute, second, offset); the offset is none when
the zone was -0000 or unparseable.  Returns none when the form is not
recognized. -/
def parsedate_tz (s : List Char) : Option (Int × Int × Int × Int × Int × Int × Option Int) := do
  if s = [] then none
  let data0 := pySplitWs s
  if data0 = [] then none
  let data1 ←
    match data0 with
    | [] => none
    | t0 :: rest =>
      if t0.getLast? = some ',' ∨ (t0.map Char.toLower) ∈ pyDayNames then pure rest
      else if ',' ∈ t0 then pure (afterLastChar ',' t0 :: rest)
      else pure (t0 :: rest)
  let data2 :=
    if data1.length = 3 then
      match data1 with
      | t0 :: rest =>
        let stuff := pySplitChar '-' t0
        if stuff.length = 3 then stuff ++ rest else data1
      | [] => data1
    else data1
  let data3 :=
    if data2.length = 4 then
      match data2.getLast? with
      | some s3 =>
        let i := match s3.indexOf? '+' with
          | some j => some j
          | none => s3.indexOf? '-'
        match i with
        | some j => if 0 < j then data2.dropLast ++ [s3.take j, s3.drop j] else data2 ++ [[]]
        | none => data2 ++ [[]]
      | none => data2 ++ [[]]
    else data2
  if data3.length < 5 then none
  let dd0 := data3.getD 0 []
  let mm0 := data3.getD 1 []
  let yy0 := data3.getD 2 []
  let tm0 := data3.getD 3 []
  let tz0 := data3.getD 4 []
  if dd0 = [] ∨ mm0 = [] ∨ yy0 = [] then none
  let mmLow := mm0.map Char.toLower
  let (dd1, mmName) ←
    if mmLow ∈ pyMonthNames then pure (dd0, mmLow)
    else
      let dd2 := mmLow
      let mm2 := dd0.map Char.toLower
      if mm2 ∈ pyMonthNames then pure (dd2, mm2) else none
  let mmIdx := (pyMonthNames.indexOf? mmName).getD 0 + 1
  let mm : Int := if mmIdx > 12 then (mmIdx : Int) - 12 else (mmIdx : Int)
  let dd3 := if dd1.getLast? = some ',' then dd1.dropLast else dd1
  let (yy1, tm1) :=
    match yy0.indexOf? ':' with
    | some j => if 0 < j then (tm0, yy0) else (yy0, tm0)
    | none => (yy0, tm0)
  let yy2 ←
    if yy1.getLast? = some ',' then
      (if yy1.dropLast = [] then none else pure yy1.dropLast)
    else pure yy1
  let (yy3, tz1) :=
    match yy2 with
    | c :: _ => if ¬ c.isDigit then (tz0, yy2) else (yy2, tz0)
    | [] => (yy2, tz0)
  let tm2 := if tm1.getLast? = some ',' then tm1.dropLast else tm1
  let tmParts := pySplitChar ':' tm2
  let (thh0, tmm0, tss0) ←
    if tmParts.length = 2 then pure (tmParts.getD 0 [], tmParts.getD 1 [], ['0'])
    else if tmParts.length = 3 then pure (tmParts.getD 0 [], tmParts.getD 1 [], tmParts.getD 2 [])
    else if tmParts.length = 1 ∧ '.' ∈ tm2 then
      let dotParts := pySplitChar '.' tm2
      if dotParts.length = 2 then pure (dotParts.getD 0 [], dotParts.getD 1 [], ['0'])
      else if dotParts.length = 3 then pure (dotParts.getD 0 [], dotParts.getD 1 [], dotParts.getD 2 [])
      else none
    else none
  let yy ← pyInt yy3
  let dd ← pyInt dd3
  let thh ← pyInt thh0
  let tmm ← pyInt tmm0
  let tss ← pyInt tss0
  let yyAdj := if yy < 100 then (if yy > 68 then yy + 1900 else yy + 2000) else yy
  let tzUp := tz1.map Char.toUpper
  let tzoffset0 : Option Int :=
    match (pyTimezones.find? (fun p => p.1 = tzUp)).map (fun p => p.2) with
    | some v => some v
    | none =>
      match pyInt tzUp with
      | some v => if v = 0 ∧ tzUp.head? = some '-' then none else some v
      | none => none
  let tzoffset : Option Int :=
    match tzoffset0 with
    | none => none
    | some v =>
      if v ≠ 0 then
        let sign : Int := if v < 0 then -1 else 1
        let a := if v < 0 then -v else v
        some (sign * ((a / 100) * 3600 + (a % 100) * 60))
      else some 0
  pure (yyAdj, mm, dd, thh, tmm, tss, tzoffset)

/-- email.utils.parsedate_to_datetime: a ValueError (modelled none) when
the parse or the datetime construction fails. -/
def parsedate_to_datetime (s : List Char) : Option PyDateTime := do
  let (yy, mm, dd, thh, tmm, tss, tz) ← parsedate_tz s
  datetimeNew yy mm dd thh tmm tss tz

/-! ## Python values and dicts, as they flow through the schema -/

/-- The Python values reaching the MessageHeadersSchema pipeline: strings,
datetimes, Address objects and lists of these. -/
inductive PyVal where
  | str (s : String)
  | dt (d : PyDateTime)
  | addr (a : Address)
  | list (vs : List PyVal)

mutual

def PyVal.deq : (a b : PyVal) → Decidable (a = b)
  | .str a, .str b =>
    match decEq a b with
    | isTrue h => isTrue (by rw [h])
    | isFalse h => isFalse (fun hh => by cases hh; exact h rfl)
  | .str _, .dt _ => isFalse (fun hh => by cases hh)
  | .str _, .addr _ => isFalse (fun hh => by cases hh)
  | .str _, .list _ => isFalse (fun hh => by cases hh)
  | .dt _, .str _ => isFalse (fun hh => by cases hh)
  | .dt a, .dt b =>
    match decEq a b with
    | isTrue h => isTrue (by rw [h])
    | isFalse h => isFalse (fun hh => by cases hh; exact h rfl)
  | .dt _, .addr _ => isFalse (fun hh => by cases hh)
  | .dt _, .list _ => isFalse (fun hh => by cases hh)
  | .addr _, .str _ => isFalse (fun hh => by cases hh)
  | .addr _, .dt _ => isFalse (fun hh => by cases hh)
  | .addr a, .addr b =>
    match decEq a b with
    | isTrue h => isTrue (by rw [h])
    | isFalse h => isFalse (fun hh => by cases hh; exact h rfl)
  | .addr _, .list _ => isFalse (fun hh => by cases hh)
  | .list _, .str _ => isFalse (fun hh => by cases hh)
  | .list _, .dt _ => isFalse (fun hh => by cases hh)
  | .list _, .addr _ => isFalse (fun hh => by cases hh)
  | .list a, .list b =>
    match PyVal.deqList a b with
    | isTrue h => isTrue (by rw [h])
    | isFalse h => isFalse (fun hh => by cases hh; exact h rfl)

def PyVal.deqList : (a b : List PyVal) → Decidable (a = b)
  | [], [] => isTrue rfl
  | [], _ :: _ => isFalse (fun hh => by cases hh)
  | _ :: _, [] => isFalse (fun hh => by cases hh)
  | x :: xs, y :: ys =>
    match PyVal.deq x y with
    | isFalse h1 => isFalse (fun hh => by cases hh; exact h1 rfl)
    | isTrue h1 =>
      match PyVal.deqList xs ys with
      | isTrue h2 => isTrue (by rw [h1, h2])
      | isFalse h2 => isFalse (fun hh => by cases hh; exact h2 rfl)

end

instance : DecidableEq PyVal := PyVal.deq

/-- An insertion-ordered Python dict with string keys. -/
abbrev HDict := List (String × PyVal)

def alistGet {α : Type} (d : List (String × α)) (k : String) : Option α :=
  (d.find? (fun p => p.1 = k)).map Prod.snd

/-- Python dict item assignment: replace in place, else append. -/
def alistSet {α : Type} : List (String × α) → String → α → List (String × α)
  | [], k, v => [(k, v)]
  | p :: t, k, v => if p.1 = k then (p.1, v) :: t else p :: alistSet t k v

/-- Python truthiness of the values above (used by `if not value`). -/
def pyFalsy : PyVal → Bool
  | .str s => s == ""
  | .list vs => vs.isEmpty
  | .dt _ => false
  | .addr _ => false

def optFalsy : Option PyVal → Bool
  | none => true
  | some v => pyFalsy v

mutual

/-- Python repr, to the extent the pipeline can observe it (str of a list
goes through the reprs of its elements; Address defines its own repr). -/
def pyRepr : PyVal → Except PyCrash String
  | .str s => .ok (if (Char.ofNat 39) ∈ s.toList then "\"" ++ s ++ "\"" else
      (Char.ofNat 39).toString ++ s ++ (Char.ofNat 39).toString)
  | .addr a => do
    let s ← Address.str a
    pure ("address.Address(\"" ++ s ++ "\")")
  | .dt d => .ok ("datetime.datetime(" ++ String.intercalate ", "
      ([d.year, d.month, d.day, d.hour, d.minute, d.second].map toString) ++ ")")
  | .list vs => do
    let rs ← pyReprList vs
    pure ("[" ++ String.intercalate ", " rs ++ "]")

def pyReprList : List PyVal → Except PyCrash (List String)
  | [] => .ok []
  | v :: vs => do
    let r ← pyRepr v
    let rs ← pyReprList vs
    pure (r :: rs)

end

/-- Python str of a datetime: isoformat with a space separator. -/
def dtStr (d : PyDateTime) : String :=
  padNum 4 d.year ++ "-" ++ padNum 2 d.month ++ "-" ++ padNum 2 d.day ++ " " ++
    padNum 2 d.hour ++ ":" ++ padNum 2 d.minute ++ ":" ++ padNum 2 d.second ++
    (match d.tz with
     | none => ""
     | some v =>
       (if v < 0 then "-" else "+") ++ padNum 2 ((if v < 0 then -v else v).toNat / 3600) ++
         ":" ++ padNum 2 (((if v < 0 then -v else v).toNat % 3600) / 60))

/-- Python str(). -/
def pyStr : PyVal → Except PyCrash String
  | .str s => .ok s
  | .addr a => Address.str a
  | .dt d => .ok (dtStr d)
  | .list vs => pyRepr (.list vs)

/-! ## The marshmallow MessageHeadersSchema pipeline (message.py)

The schema declares date (DateTime with the rfc format, required), sender
(AddressField), reply_to / to / cc / bcc (List of AddressField) and, via
Meta.include, from (List of AddressField, required, attribute
from_addresses); on_bind_field sets every data key to the mime_headerized
field name; unknown is INCLUDE. -/

inductive FieldType
  | dateTime
  | address
  | addressList
deriving DecidableEq, Repr

structure FieldSpec where
  name : String
  attr : String
  ftype : FieldType
  required : Bool
deriving DecidableEq, Repr

def schemaFields : List FieldSpec :=
  [⟨"date", "date", .dateTime, true⟩,
   ⟨"sender", "sender", .address, false⟩,
   ⟨"reply_to", "reply_to", .addressList, false⟩,
   ⟨"to", "to", .addressList, false⟩,
   ⟨"cc", "cc", .addressList, false⟩,
   ⟨"bcc", "bcc", .addressList, false⟩,
   ⟨"from", "from_addresses", .addressList, true⟩]

/-- The attribute names of the declared fields, as computed by
cache_unknown_fields (field.attribute or field.name). -/
def schemaAttrs : List String := schemaFields.map (fun f => f.attr)

/-- The data keys of the declared fields (on_bind_field). -/
def schemaDataKeys : List String := schemaFields.map (fun f => mime_headerize f.name)

/-- Field serialization for dump: DateTime rfc delegates to
format_datetime (an AttributeError on anything but a datetime); the
String-derived AddressField applies str; a List serializes elementwise,
iterating a string character by character and raising TypeError on
non-iterable values. -/
def fieldSerialize : FieldType → PyVal → Except PyCrash PyVal
  | .dateTime, .dt d => .ok (.str (format_datetime d))
  | .dateTime, _ => .error .attributeError
  | .address, v => do
    let s ← pyStr v
    pure (.str s)
  | .addressList, .list vs => do
    let ss ← vs.mapM pyStr
    pure (.list (ss.map PyVal.str))
  | .addressList, .str s => .ok (.list (s.toList.map (fun c => PyVal.str c.toString)))
  | .addressList, _ => .error .typeError

/-- One declared field of a Schema.dump pass: serialize the field when
its attribute is present in the input, under its data key. -/
def dumpStep (obj : HDict) (acc : HDict) (f : FieldSpec) : Except PyCrash HDict :=
  match alistGet obj f.attr with
  | none => pure acc
  | some v => do
    let sv ← fieldSerialize f.ftype v
    pure (alistSet acc (mime_headerize f.name) sv)

/-- Schema.dump with the pre_dump and post_dump hooks of
MessageHeadersSchema: serialize each declared field present in the input
under its data key, then re-attach every unknown input key under its
mime_headerized name (cache_unknown_fields / dump_unknown_fields). -/
def schemaDump (obj : HDict) : Except PyCrash HDict := do
  let cached := obj.filter (fun p => p.1 ∉ schemaAttrs)
  let base ← schemaFields.foldlM (dumpStep obj) ([] : HDict)
  pure (cached.foldl (fun acc p => alistSet acc (mime_headerize p.1) p.2) base)

/-- The message of a failed AddressField deserialization. -/
def notValidAddressMsg : String := "Not a valid address."

/-- AddressField._validated: Address instances pass through, strings are
parsed through Address.__init__ (a ValueError becomes the field error);
parseaddr applied to other values raises an uncaught TypeError. -/
def addrFieldDeser : PyVal → Except PyCrash (Except (List String) PyVal)
  | .addr a => .ok (.ok (.addr a))
  | .str s =>
    match Address.init s with
    | .ok a => .ok (.ok (.addr a))
    | .error _ => .ok (.error [notValidAddressMsg])
  | _ => .error .typeError

/-- Elementwise deserialization of a List of AddressField, collecting the
error messages of every failing index in order. -/
def addrListDeser (vs : List PyVal) : Except PyCrash (Except (List String) PyVal) := do
  let rs ← vs.mapM addrFieldDeser
  let errs := rs.foldl (fun acc r => match r with | .error ms => acc ++ ms | .ok _ => acc) []
  if errs = [] then
    pure (.ok (.list (rs.map (fun r => match r with | .ok v => v | .error _ => PyVal.str ""))))
  else pure (.error errs)

/-- Field deserialization for load and validate: DateTime rfc rejects
falsy input, then delegates to parsedate_to_datetime, every raised
ValueError / TypeError / AttributeError becoming the invalid-datetime
error; List accepts only lists (is_iterable_but_not_string excludes
strings). -/
def fieldDeserialize : FieldType → PyVal → Except PyCrash (Except (List String) PyVal)
  | .dateTime, v =>
    if pyFalsy v then .ok (.error ["Not a valid datetime."])
    else
      match v with
      | .str s =>
        match parsedate_to_datetime s.toList with
        | some d => .ok (.ok (.dt d))
        | none => .ok (.error ["Not a valid datetime."])
      | _ => .ok (.error ["Not a valid datetime."])
  | .address, v => addrFieldDeser v
  | .addressList, .list vs => addrListDeser vs
  | .addressList, _ => .ok (.error ["Not a valid list."])

/-- The cross-field message of validate_mandatory_fields. -/
def crossFieldMsg : String :=
  let q := (Char.ofNat 39).toString
  "One of " ++ q ++ "to" ++ q ++ ", or " ++ q ++ "bcc" ++ q ++ " must be supplied"

/-- One declared field of a Schema.load pass: a per-data-key error entry
for a missing required or failing field (index structure of list errors
flattened to the message list), a deserialized value stored under the
attribute name otherwise. -/
def loadStep (data : HDict) (acc : List (String × List String) × HDict) (f : FieldSpec) :
    Except PyCrash (List (String × List String) × HDict) := do
  match alistGet data (mime_headerize f.name) with
  | none =>
    if f.required then
      pure (acc.1 ++ [(mime_headerize f.name, ["Missing data for required field."])], acc.2)
    else pure acc
  | some v =>
    match ← fieldDeserialize f.ftype v with
    | .error msgs => pure (acc.1 ++ [(mime_headerize f.name, msgs)], acc.2)
    | .ok pv => pure (acc.1, alistSet acc.2 f.attr pv)

/-- Schema.load, up to the error aggregation: the fold of loadStep over
the declared fields, unknown keys included unchanged (unknown=INCLUDE),
and the validates_schema hook validate_mandatory_fields running only when
no field-level error was collected (its default skip_on_field_errors). -/
def schemaLoadResult (data : HDict) : Except PyCrash (List (String × List String) × HDict) := do
  let (errs, out) ← schemaFields.foldlM (loadStep data)
    (([], []) : List (String × List String) × HDict)
  let out2 := (data.filter (fun p => p.1 ∉ schemaDataKeys)).foldl
    (fun o p => alistSet o p.1 p.2) out
  let errs2 :=
    if errs = [] ∧ optFalsy (alistGet out2 "to") ∧ optFalsy (alistGet out2 "bcc") then
      errs ++ [("_schema", [crossFieldMsg])]
    else errs
  pure (errs2, out2)

/-- Schema.validate: the collected errors of a load. -/
def schemaValidate (data : HDict) : Except PyCrash (List (String × List String)) :=
  (schemaLoadResult data).map (fun r => r.1)

/-! ## sremail.message.Message -/

/-- A MIME part as built by attach / attach_text (MIMEApplication or
MIMEText plus a content-disposition header).  The oid field models Python
object identity: email.message objects define neither equality nor
ordering, so the interpreter compares them by identity, and two parts
built by separate constructor calls are distinct even with equal
content. -/
structure MimePart where
  oid : Nat
  contentType : String
  dispositionFilename : Option String
  payload : String
deriving DecidableEq, Repr

instance : Repr PyVal :=
  ⟨fun v _ => match pyRepr v with | .ok s => s | .error _ => "..."⟩

structure Message where
  headers : HDict
  attachments : List MimePart
deriving DecidableEq, Repr

/-- The errors Message construction can surface: the explicit ValueError
carrying the validation errors, or an exception escaping the schema
machinery. -/
inductive InitError
  | crash (c : PyCrash)
  | valueError (errs : List (String × List String))
deriving DecidableEq, Repr

/-- Message.__init__: validate the dump of the supplied headers, raise
ValueError with the validation result when it is non-empty, else store a
fresh dump as the headers and start with no attachments. -/
def Message.init (headers : HDict) : Except InitError Message := do
  let dumped ← (schemaDump headers).mapError InitError.crash
  let errs ← (schemaValidate dumped).mapError InitError.crash
  if errs.length > 0 then throw (.valueError errs)
  let dumped2 ← (schemaDump headers).mapError InitError.crash
  pure ⟨dumped2, []⟩

/-- Message.with_headers: load the raw headers (re-raising a
ValidationError as ValueError with the same messages), set headers and
attachments on a fresh object — and fall off the end of the method, so
the created Message is discarded and Python returns None. -/
def Message.with_headers (headers : HDict) : Except InitError (Option Message) := do
  let r ← (schemaLoadResult headers).mapError InitError.crash
  if r.1 ≠ [] then throw (.valueError r.1)
  let self : Message := ⟨r.2, []⟩
  let _ := self
  pure none

/-- Message.attach_text: append a MIMEText part; the oid argument stands
for the identity of the freshly allocated part. -/
def Message.attach_text (m : Message) (text : String) (subtype : String) (oid : Nat) : Message :=
  { m with attachments := m.attachments ++ [⟨oid, "text/" ++ subtype, none, text⟩] }

/-- Message.attach: read the file (IOError when the filesystem
collaborator has no readable file there), infer the MIME subtype as
file_path.split on dot, last piece, and attach an application part whose
content-disposition filename is the basename of the path. -/
def Message.attach (fs : String → Option String) (m : Message) (file_path : String)
    (oid : Nat) : Except String Message :=
  match fs file_path with
  | none => .error "IOError"
  | some contents =>
    let ext := ((pySplitChar '.' file_path.toList).getLastD []).asString
    .ok { m with attachments := m.attachments ++
      [⟨oid, "application/" ++ ext, some (pyBasename file_path.toList).asString, contents⟩] }

/-- The transport-ready mail object built by as_mime: ordered header
lines and the attached parts. -/
structure MimeMessage where
  headerLines : List (String × PyVal)
  parts : List MimePart
deriving DecidableEq, Repr

/-- Python str.join with a comma-space separator: TypeError unless every
element is a string. -/
def joinPyList : List PyVal → Except PyCrash String
  | [] => .ok ""
  | [v] =>
    match v with
    | .str s => .ok s
    | _ => .error .typeError
  | v :: rest =>
    match v with
    | .str s => (joinPyList rest).map (fun r => s ++ ", " ++ r)
    | _ => .error .typeError

/-- The body of the header loop of as_mime: one header line, a list
value joined with comma-space (a TypeError on a non-string element). -/
def renderedHeader (p : String × PyVal) : Except PyCrash (String × PyVal) :=
  match p.2 with
  | .list vs => (joinPyList vs).map (fun s => (p.1, PyVal.str s))
  | v => .ok (p.1, v)

/-- All header lines of the as_mime loop, in order. -/
def mapRendered : List (String × PyVal) → Except PyCrash (List (String × PyVal))
  | [] => .ok []
  | p :: rest => do
    let q ← renderedHeader p
    let rs ← mapRendered rest
    pure (q :: rs)

/-- Message.as_mime: build a fresh email.message.Message, add the
Content-Type and MIME-Version headers, copy every stored header (joining
list values with comma-space), then attach every stored part in order.
The Message itself is only read, never written, so it is returned
unchanged as the post-state. -/
def Message.as_mime (m : Message) : Except PyCrash MimeMessage × Message :=
  let hdrs := m.headers.foldlM
    (fun (acc : List (String × PyVal)) p => (renderedHeader p).map (fun q => acc ++ [q]))
    [("Content-Type", PyVal.str "multipart/mixed"), ("MIME-Version", PyVal.str "1.0")]
  match hdrs with
  | .error c => (.error c, m)
  | .ok hs => (.ok ⟨hs, m.attachments⟩, m)

/-- Python sorted on a list of email.message objects: they define no
ordering, so any list needing an element comparison (two or more
elements) raises TypeError; shorter lists are returned as they are. -/
def pySorted (l : List MimePart) : Except PyCrash (List MimePart) :=
  if l.length ≤ 1 then .ok l else .error .typeError

/-- Python dict equality: same keys with equal values, ignoring insertion
order. -/
def dictEq (a b : HDict) : Bool :=
  a.all (fun p => alistGet b p.1 == some p.2) ∧ b.all (fun p => alistGet a p.1 == some p.2)

/-- Python list equality after sorting, comparing the parts the way the
interpreter does: by identity. -/
def partsIdEq : List MimePart → List MimePart → Bool
  | [], [] => true
  | p :: ps, q :: qs => p.oid == q.oid && partsIdEq ps qs
  | _, _ => false

/-- Message.__eq__ against another Message (isinstance succeeds): headers
compared as dicts, and — only when they are equal, by the short circuit
of the and — the attachment lists compared after sorting each. -/
def Message.eq (a b : Message) : Except PyCrash Bool :=
  if ¬ dictEq a.headers b.headers then .ok false
  else do
    let sa ← pySorted a.attachments
    let sb ← pySorted b.attachments
    pure (partsIdEq sa sb)

/-- An equality operand: another Message, or an object of a class
unrelated to Message (for which the isinstance test of Message.__eq__ is
false). -/
inductive PyOperand
  | msg (m : Message)
  | unrelated

/-- Message.__eq__ on the full operand range it handles without an
attribute error. -/
def Message.eqOp (a : Message) : PyOperand → Except PyCrash Bool
  | .msg b => Message.eq a b
  | .unrelated => .ok false

/-! ## sremail.smtp -/

inductive SmtpEvent
  | connect (url : String)
  | send (mail : MimeMessage)
  | quit
deriving DecidableEq, Repr

/-- The body of the with block of send_all: send each message in order
over the one session; the collaborator oracle says which send attempts
raise, and the first raised exception (from rendering or sending) aborts
the remaining sends, reported as the index of the failing message. -/
def sendLoop (fails : Nat → Bool) : List Message → Nat → List SmtpEvent × Option Nat
  | [], _ => ([], none)
  | m :: rest, i =>
    match (Message.as_mime m).1 with
    | .error _ => ([], some i)
    | .ok mail =>
      if fails i then ([], some i)
      else
        let r := sendLoop fails rest (i + 1)
        (SmtpEvent.send mail :: r.1, r.2)

/-- smtp.send_all: one smtplib.SMTP session for the whole batch; the with
statement guarantees the closing quit on normal exit and on an exception
alike, and the exception still propagates (the returned index). -/
def send_all (fails : Nat → Bool) (messages : List Message) (smtp_url : String) :
    List SmtpEvent × Option Nat :=
  let (evs, err) := sendLoop fails messages 0
  (SmtpEvent.connect smtp_url :: evs ++ [SmtpEvent.quit], err)

/-- smtp.send: one session for one message. -/
def send (fails : Nat → Bool) (message : Message) (smtp_url : String) :
    List SmtpEvent × Option Nat :=
  send_all fails [message] smtp_url

/-! ## Derived notions used by the statements below -/

/-- The condition of validate_mandatory_fields, computed through the
construction pipeline of Message.__init__: neither to nor bcc of the
loaded dump is truthy (vacuously when the pipeline raises earlier). -/
def noRecipientsB (m : HDict) : Bool :=
  match schemaDump m with
  | .error _ => true
  | .ok dumped =>
    match schemaLoadResult dumped with
    | .error _ => true
    | .ok (_, out) => optFalsy (alistGet out "to") && optFalsy (alistGet out "bcc")

/-- A character free of every parser delimiter: not an atom end, not a
backslash (which formataddr would escape), not Python whitespace, and
ascii (so formataddr takes neither of its non-ascii paths on it). -/
def goodAtomChar (c : Char) : Prop :=
  c ∉ atomendsChars ∧ c ≠ '\\' ∧ ¬ pyIsSpace c ∧ c.toNat < 128

instance (c : Char) : Decidable (goodAtomChar c) := by
  unfold goodAtomChar; infer_instance

/-- A non-empty run of delimiter-free characters. -/
def goodAtom (a : List Char) : Prop := a ≠ [] ∧ ∀ c ∈ a, goodAtomChar c

instance (a : List Char) : Decidable (goodAtom a) := by
  unfold goodAtom; infer_instance

/-- The aslist entries getaddrspec collects for a dotted local part. -/
def dotPieces : List (List Char) → List (List Char)
  | [] => []
  | [a] => [a]
  | a :: rest => a :: ['.'] :: dotPieces rest

/-- A concrete filesystem collaborator for the attach witnesses. -/
def fsEx : String → Option String := fun p => if p = "a.b/c" then some "DATA" else none

/-- The raw headers of the with_headers docstring and test. -/
def whInput : HDict :=
  [("To", PyVal.list [PyVal.str "sgibson@glasswallsolutions.com"]),
   ("Date", PyVal.str "Mon, 25 Nov 2019 14:59:32 UTC +0000"),
   ("From", PyVal.list [PyVal.str "sgibson@glasswallsolutions.com"])]

/-- A mapping with a valid date and from but neither to nor bcc. -/
def mNoRecip : HDict :=
  [("date", PyVal.dt ⟨2019, 11, 12, 15, 24, 28, some 0⟩),
   ("from_addresses", PyVal.list [PyVal.str "c@d.com"])]

/-! ## Theorems -/

theorem pySplitChar_ne_nil (sep : Char) (l : List Char) : pySplitChar sep l ≠ [] := by
  cases l with
  | nil => simp [pySplitChar]
  | cons c cs =>
    simp only [pySplitChar]
    cases h : pySplitChar sep cs with
    | nil => simp
    | cons h t =>
      by_cases hc : c = sep <;> simp [hc]

theorem pySplitChar_no_sep (sep : Char) (l : List Char) (h : sep ∉ l) :
    pySplitChar sep l = [l] := by
  induction l with
  | nil => rfl
  | cons c cs ih =>
    simp only [List.mem_cons, not_or] at h
    simp only [pySplitChar, ih h.2]
    rw [if_neg (fun hc => h.1 hc.symm)]

theorem pySplitChar_length_two (sep : Char) (l : List Char) (h : sep ∈ l) :
    2 ≤ (pySplitChar sep l).length := by
  induction l with
  | nil => simp at h
  | cons c cs ih =>
    simp only [pySplitChar]
    cases hs : pySplitChar sep cs with
    | nil => exact absurd hs (pySplitChar_ne_nil sep cs)
    | cons a t =>
      by_cases hc : c = sep
      · simp [hc]
      · have hmem : sep ∈ cs := by
          rcases List.mem_cons.mp h with h1 | h2
          · exact absurd h1.symm hc
          · exact h2
        have := ih hmem
        rw [hs] at this
        simp only [if_neg hc, List.length_cons]
        simpa using this

theorem pySplitChar_getLast_append (sep : Char) (xs ys : List Char) :
    (pySplitChar sep (xs ++ sep :: ys)).getLast? =
    (pySplitChar sep ys).getLast? := by
  induction xs with
  | nil =>
    simp only [List.nil_append, pySplitChar]
    cases hs : pySplitChar sep ys with
    | nil => exact absurd hs (pySplitChar_ne_nil sep ys)
    | cons a t => simp [List.getLast?_cons_cons]
  | cons c cs ih =>
    simp only [List.cons_append, pySplitChar]
    cases hs : pySplitChar sep (cs ++ sep :: ys) with
    | nil => exact absurd hs (pySplitChar_ne_nil _ _)
    | cons a t =>
      rw [hs] at ih
      by_cases hc : c = sep
      · simp only [if_pos hc, List.getLast?_cons_cons]
        exact ih
      · have hlen : 2 ≤ (pySplitChar sep (cs ++ sep :: ys)).length :=
          pySplitChar_length_two sep _ (by simp)
        rw [hs] at hlen
        cases t with
        | nil => simp at hlen
        | cons b t2 =>
          simp only [if_neg hc, List.getLast?_cons_cons]
          rw [← @List.getLast?_cons_cons _ a b t2]
          exact ih

theorem getLastD_of_getLast_append (sep : Char) (xs ys : List Char) (h : sep ∉ ys) :
    (pySplitChar sep (xs ++ sep :: ys)).getLastD [] = ys := by
  rw [List.getLastD_eq_getLast?, pySplitChar_getLast_append, pySplitChar_no_sep sep ys h]
  rfl

/-- C10: attach infers the MIME subtype as the substring of the whole
path after its last dot — the entire path (directories included) when
there is no dot, and everything after a dot in a directory name
(slashes included) otherwise — and the content-disposition filename is
always the basename of the path. -/
theorem sremail_C10 (fs : String → Option String) (m : Message) (file_path : String)
    (oid : Nat) (contents : String) (hfs : fs file_path = some contents) :
    Message.attach fs m file_path oid = .ok { m with attachments := m.attachments ++
      [⟨oid, "application/" ++ ((pySplitChar '.' file_path.toList).getLastD []).asString,
        some (pyBasename file_path.toList).asString, contents⟩] } ∧
    ('.' ∉ file_path.toList → (pySplitChar '.' file_path.toList).getLastD [] = file_path.toList) ∧
    (∀ pre post, file_path.toList = pre ++ '.' :: post → '.' ∉ post →
      (pySplitChar '.' file_path.toList).getLastD [] = post) := by
  refine ⟨?_, ?_, ?_⟩
  · simp [Message.attach, hfs]
  · intro h
    rw [pySplitChar_no_sep '.' file_path.toList h]
    rfl
  · intro pre post hsplit hpost
    rw [hsplit]
    exact getLastD_of_getLast_append '.' pre post hpost

/-- C10 witness: attaching a.b/c (a dot only in the directory name)
yields the subtype b/c and the disposition filename c. -/
theorem sremail_C10_witness :
    fsEx "a.b/c" = some "DATA" ∧
    Message.attach fsEx ⟨[], []⟩ "a.b/c" 7 =
      .ok ⟨[], [⟨7, "application/b/c", some "c", "DATA"⟩]⟩ := by
  constructor
  · rfl
  · have h := (sremail_C10 fsEx ⟨[], []⟩ "a.b/c" 7 "DATA" rfl).1
    rw [h]
    rfl

theorem exMap_ok {ε α β : Type} (f : α → β) (a : α) :
    (Except.ok a : Except ε α).map f = .ok (f a) := rfl

theorem exMap_error {ε α β : Type} (f : α → β) (c : ε) :
    (Except.error c : Except ε α).map f = .error c := rfl

theorem exBind_ok {ε α β : Type} (a : α) (f : α → Except ε β) :
    ((Except.ok a : Except ε α) >>= f) = f a := rfl

theorem exBind_error {ε α β : Type} (c : ε) (f : α → Except ε β) :
    ((Except.error c : Except ε α) >>= f) = .error c := rfl

theorem asMime_fold_eq (l : List (String × PyVal)) (init : List (String × PyVal)) :
    List.foldlM (fun (acc : List (String × PyVal)) p =>
      (renderedHeader p).map (fun q => acc ++ [q])) init l =
    (mapRendered l).map (fun rs => init ++ rs) := by
  induction l generalizing init with
  | nil =>
    show Except.ok init = Except.ok (init ++ [])
    rw [List.append_nil]
  | cons p rest ih =>
    rw [List.foldlM_cons]
    have h4 : mapRendered (p :: rest) = (renderedHeader p) >>= fun q =>
        (mapRendered rest).map (fun rs => q :: rs) := by
      simp only [mapRendered]
      cases renderedHeader p with
      | error c => rfl
      | ok q => cases mapRendered rest <;> rfl
    rw [h4]
    cases hq : renderedHeader p with
    | error c => simp only [exMap_error, exBind_error]
    | ok q =>
      simp only [exMap_ok, exBind_ok]
      rw [ih]
      cases mapRendered rest with
      | error c => rfl
      | ok rs => simp [exMap_ok]

/-- C7: as_mime is pure with respect to the Message: the post-state is the
Message unchanged, and the produced mail object is a function of the
current headers and attachments alone — the Content-Type and MIME-Version
lines followed by every stored header in order with list values joined by
comma-space, and the attachments in append order — so two calls with no
intervening mutation produce structurally equal mail objects. -/
theorem sremail_C7 (m : Message) :
    Message.as_mime m =
      ((mapRendered m.headers).map (fun rs =>
        MimeMessage.mk ([("Content-Type", PyVal.str "multipart/mixed"),
          ("MIME-Version", PyVal.str "1.0")] ++ rs) m.attachments), m) := by
  unfold Message.as_mime
  rw [asMime_fold_eq]
  cases mapRendered m.headers with
  | error c => rfl
  | ok rs => rfl

/-- C9 counterexample: comparing a two-attachment Message with an
identical one does not terminate with a boolean — sorted needs an order
on MIME parts, which email.message objects do not define, so __eq__
raises TypeError. -/
theorem sremail_C9_counterexample :
    Message.eq
      ⟨[("To", PyVal.str "a@b.com")],
        [⟨1, "text/plain", none, "x"⟩, ⟨2, "text/plain", none, "y"⟩]⟩
      ⟨[("To", PyVal.str "a@b.com")],
        [⟨1, "text/plain", none, "x"⟩, ⟨2, "text/plain", none, "y"⟩]⟩
      = .error PyCrash.typeError := by rfl

/-- C9 (amended): Message equality returns a boolean whenever each
attachment list holds at most one part — true iff the header dicts are
equal by value and the attachment lists are elementwise identical — and
returns false for an operand of a class unrelated to Message; but when
the headers are equal and one message carries two or more attachments,
the comparison raises TypeError instead of terminating with a boolean. -/
theorem sremail_C9_amended :
    (∀ a : Message, Message.eqOp a PyOperand.unrelated = .ok false) ∧
    (∀ a b : Message, a.attachments.length ≤ 1 → b.attachments.length ≤ 1 →
      Message.eq a b = .ok (dictEq a.headers b.headers &&
        partsIdEq a.attachments b.attachments)) ∧
    (∀ a b : Message, dictEq a.headers b.headers → 2 ≤ a.attachments.length →
      Message.eq a b = .error PyCrash.typeError) := by
  refine ⟨fun a => rfl, ?_, ?_⟩
  · intro a b ha hb
    unfold Message.eq
    by_cases hd : dictEq a.headers b.headers
    · rw [if_neg (by simpa using hd)]
      unfold pySorted
      rw [if_pos ha, if_pos hb]
      simp [exBind_ok, hd]
    · rw [if_pos (by simpa using hd)]
      simp [Bool.eq_false_iff.mpr hd]
  · intro a b hd hlen
    unfold Message.eq
    rw [if_neg (by simpa using hd)]
    unfold pySorted
    rw [if_neg (by omega)]
    rfl

/-- C9 witness: two one-attachment Messages with equal headers compare to
false, because the parts are distinct objects. -/
theorem sremail_C9_witness :
    ((⟨[("To", PyVal.str "x")], [⟨1, "text/plain", none, "x"⟩]⟩ : Message).attachments.length ≤ 1) ∧
    Message.eq ⟨[("To", PyVal.str "x")], [⟨1, "text/plain", none, "x"⟩]⟩
      ⟨[("To", PyVal.str "x")], [⟨2, "text/plain", none, "x"⟩]⟩ = .ok false := by
  constructor
  · decide
  · rw [sremail_C9_amended.2.1 _ _ (by decide) (by decide)]
    rfl

/-- C2 (code bug): on the raw headers of its own docstring and of
test_with_headers, Message.with_headers loads the headers successfully
(no validation errors, so the documented failure contract is not even
exercised) and then returns None — the method body never returns the
Message it built — where the docstring and the test promise the created
Message object. -/
theorem sremail_C2_bug :
    Message.with_headers whInput = .ok none ∧
    schemaLoadResult whInput = .ok ([],
      [("date", PyVal.dt ⟨2019, 11, 25, 14, 59, 32, some 0⟩),
       ("to", PyVal.list [PyVal.addr ⟨"", "sgibson@glasswallsolutions.com"⟩]),
       ("from_addresses", PyVal.list [PyVal.addr ⟨"", "sgibson@glasswallsolutions.com"⟩])]) := by
  constructor
  · rfl
  · rfl

/-- C4: every input string whose extractable email portion (the second
component of parseaddr) lacks an at sign makes Address construction fail
with an error, and consequently every successfully constructed Address
has an email part containing an at sign. -/
theorem sremail_C4 (s : String) :
    ('@' ∉ (parseaddr s).2.toList → ∃ e, Address.init s = .error e) ∧
    (∀ a : Address, Address.init s = .ok a → '@' ∈ a.email.toList) := by
  rcases hp : parseaddr s with ⟨n, e⟩
  simp only [Address.init, hp]
  constructor
  · intro h
    by_cases h1 : n = "" ∧ e = ""
    · exact ⟨"Bad address given", by rw [if_pos h1]⟩
    · exact ⟨"Email was not an email address", by rw [if_neg h1, if_pos h]⟩
  · intro a ha
    by_cases h1 : n = "" ∧ e = ""
    · rw [if_pos h1] at ha
      cases ha
    · rw [if_neg h1] at ha
      by_cases h2 : '@' ∉ e.toList
      · rw [if_pos h2] at ha
        cases ha
      · rw [if_neg h2] at ha
        cases ha
        simpa using h2

/-- C4 witness: Sam Gibson parses to the email portion Sam, which has no
at sign, so construction fails. -/
theorem sremail_C4_witness :
    '@' ∉ (parseaddr "Sam Gibson").2.toList ∧
    (∃ e, Address.init "Sam Gibson" = .error e) := by
  constructor
  · decide
  · exact (sremail_C4 "Sam Gibson").1 (by decide)

theorem exMapError_ok {ε ε2 α : Type} (f : ε → ε2) (a : α) :
    (Except.ok a : Except ε α).mapError f = .ok a := rfl

theorem exMapError_error {ε ε2 α : Type} (f : ε → ε2) (c : ε) :
    (Except.error c : Except ε α).mapError f = .error (f c) := rfl

/-- A successful loadStep leaves the error list alone or appends exactly
one entry keyed by the data key of its field. -/
theorem loadStep_errs (data : HDict) (acc : List (String × List String) × HDict)
    (f : FieldSpec) (acc2 : List (String × List String) × HDict)
    (h : loadStep data acc f = .ok acc2) :
    acc2.1 = acc.1 ∨ ∃ msgs, acc2.1 = acc.1 ++ [(mime_headerize f.name, msgs)] := by
  unfold loadStep at h
  cases hg : alistGet data (mime_headerize f.name) with
  | none =>
    rw [hg] at h
    by_cases hr : f.required
    · rw [if_pos hr] at h
      injection h with h2
      exact Or.inr ⟨["Missing data for required field."], by rw [← h2]⟩
    · rw [if_neg hr] at h
      injection h with h2
      exact Or.inl (by rw [← h2])
  | some v =>
    rw [hg] at h
    dsimp only at h
    cases hd : fieldDeserialize f.ftype v with
    | error c => rw [hd, exBind_error] at h; cases h
    | ok r =>
      rw [hd, exBind_ok] at h
      cases r with
      | error msgs =>
        injection h with h2
        exact Or.inr ⟨msgs, by rw [← h2]⟩
      | ok pv =>
        injection h with h2
        exact Or.inl (by rw [← h2])

/-- A load fold only appends error entries, each keyed by the data key of
one of its fields. -/
theorem loadFold_append (fields : List FieldSpec) (data : HDict)
    (acc res : List (String × List String) × HDict)
    (h : List.foldlM (loadStep data) acc fields = .ok res) :
    ∃ tail, res.1 = acc.1 ++ tail ∧
      ∀ p ∈ tail, p.1 ∈ fields.map (fun f => mime_headerize f.name) := by
  induction fields generalizing acc with
  | nil =>
    injection h with h2
    exact ⟨[], by rw [← h2, List.append_nil], by simp⟩
  | cons g gs ih =>
    rw [List.foldlM_cons] at h
    cases hstep : loadStep data acc g with
    | error c => rw [hstep, exBind_error] at h; cases h
    | ok acc2 =>
      rw [hstep, exBind_ok] at h
      obtain ⟨tail, ht, hkeys⟩ := ih acc2 h
      rcases loadStep_errs data acc g acc2 hstep with h1 | ⟨msgs, h1⟩
      · refine ⟨tail, by rw [ht, h1], ?_⟩
        intro p hp
        simp only [List.map_cons, List.mem_cons]
        exact Or.inr (hkeys p hp)
      · refine ⟨(mime_headerize g.name, msgs) :: tail, ?_, ?_⟩
        · rw [ht, h1, List.append_assoc]
          rfl
        · intro p hp
          simp only [List.map_cons, List.mem_cons]
          rcases List.mem_cons.mp hp with rfl | hp2
          · exact Or.inl rfl
          · exact Or.inr (hkeys p hp2)

/-- A present field whose deserialization fails contributes its error
entry to a successful load fold. -/
theorem loadFold_mem (fields : List FieldSpec) (data : HDict)
    (acc res : List (String × List String) × HDict) (f : FieldSpec) (v : PyVal)
    (msgs : List String)
    (hf : f ∈ fields)
    (hg : alistGet data (mime_headerize f.name) = some v)
    (hd : fieldDeserialize f.ftype v = .ok (.error msgs))
    (h : List.foldlM (loadStep data) acc fields = .ok res) :
    (mime_headerize f.name, msgs) ∈ res.1 := by
  induction fields generalizing acc with
  | nil => cases hf
  | cons g gs ih =>
    rw [List.foldlM_cons] at h
    cases hstep : loadStep data acc g with
    | error c => rw [hstep, exBind_error] at h; cases h
    | ok acc2 =>
      rw [hstep, exBind_ok] at h
      rcases List.mem_cons.mp hf with rfl | hf2
      · have hstep2 : loadStep data acc f = .ok (acc.1 ++ [(mime_headerize f.name, msgs)], acc.2) := by
          unfold loadStep
          rw [hg]
          dsimp only
          rw [hd, exBind_ok]
          rfl
        rw [hstep2] at hstep
        injection hstep with h2
        obtain ⟨tail, ht, _⟩ := loadFold_append gs data acc2 res h
        rw [ht, ← h2]
        simp
      · exact ih acc2 hf2 h

/-- Message.__init__ raises ValueError with exactly the validation result
whenever that result is non-empty. -/
theorem init_of_validate_err (m dumped : HDict) (errs : List (String × List String))
    (hdump : schemaDump m = .ok dumped)
    (hval : schemaValidate dumped = .ok errs)
    (hne : errs ≠ []) :
    Message.init m = .error (.valueError errs) := by
  unfold Message.init
  rw [hdump, exMapError_ok, exBind_ok, hval, exMapError_ok, exBind_ok]
  rw [if_pos (by simpa [List.length_pos] using hne)]
  rfl

/-- C1 counterexample: the empty header mapping lacks both to and bcc,
and construction does fail — but with only the two missing-required-field
errors; the cross-field message is absent from every entry, because the
validates_schema hook is skipped as soon as any field-level error exists
(its default skip_on_field_errors). -/
theorem sremail_C1_counterexample :
    Message.init [] = .error (.valueError
      [("Date", ["Missing data for required field."]),
       ("From", ["Missing data for required field."])]) ∧
    ∀ p ∈ [(("Date" : String), ["Missing data for required field."]),
       (("From" : String), ["Missing data for required field."])], crossFieldMsg ∉ p.2 := by
  exact ⟨rfl, by decide⟩

/-- The shape of a successful load whose deserialized data has falsy to
and bcc: a non-empty error list that is either purely field-keyed or
exactly the cross-field singleton. -/
theorem loadResult_shape (data : HDict) (errs : List (String × List String)) (out : HDict)
    (hl : schemaLoadResult data = .ok (errs, out))
    (hto : optFalsy (alistGet out "to") = true)
    (hbcc : optFalsy (alistGet out "bcc") = true) :
    errs ≠ [] ∧ ((∃ p ∈ errs, p.1 ≠ "_schema") ∨ errs = [("_schema", [crossFieldMsg])]) := by
  unfold schemaLoadResult at hl
  cases hfold : List.foldlM (loadStep data)
      (([], []) : List (String × List String) × HDict) schemaFields with
  | error c => rw [hfold, exBind_error] at hl; cases hl
  | ok feo =>
    obtain ⟨fe, fo⟩ := feo
    rw [hfold, exBind_ok] at hl
    dsimp only at hl
    injection hl with hl2
    obtain ⟨he, ho⟩ := Prod.mk.injEq _ _ _ _ |>.mp hl2
    subst ho
    by_cases hfe : fe = []
    · rw [← he, if_pos ⟨hfe, by simpa using hto, by simpa using hbcc⟩, hfe]
      refine ⟨by simp, Or.inr rfl⟩
    · rw [← he, if_neg (fun hc => hfe hc.1)]
      refine ⟨hfe, Or.inl ?_⟩
      obtain ⟨tail, ht, hkeys⟩ := loadFold_append schemaFields data ([], []) (fe, fo) hfold
      simp only [List.nil_append] at ht
      cases hfe2 : fe with
      | nil => exact absurd hfe2 hfe
      | cons p ps =>
        refine ⟨p, ?_, ?_⟩
        · exact List.mem_cons_self p ps
        · have hp : p.1 ∈ schemaFields.map (fun f => mime_headerize f.name) := by
            apply hkeys
            rw [← ht, hfe2]
            exact List.mem_cons_self p ps
          have hkeysList : schemaFields.map (fun f => mime_headerize f.name) =
              ["Date", "Sender", "Reply-To", "To", "Cc", "Bcc", "From"] := by rfl
          rw [hkeysList] at hp
          have hall : ∀ x ∈ ["Date", "Sender", "Reply-To", "To", "Cc", "Bcc", "From"],
              x ≠ ("_schema" : String) := by decide
          exact hall p.1 hp

/-- C1 (amended): for every raw header mapping in which neither to nor
bcc resolves to a non-empty list through the validation pipeline, Message
construction fails; when dump and load complete, the raised ValueError
carries exactly the collected error list, and that list contains the
cross-field supply-to-or-bcc error precisely when no field-level error
was collected — with any field-level error present (for example a missing
required date), the schema-level check is skipped and the cross-field
message is absent. -/
theorem sremail_C1_amended (m : HDict) (h : noRecipientsB m = true) :
    (∃ e, Message.init m = .error e) ∧
    (∀ dumped errs out, schemaDump m = .ok dumped →
      schemaLoadResult dumped = .ok (errs, out) →
      Message.init m = .error (.valueError errs) ∧
      ((∃ p ∈ errs, p.1 ≠ "_schema") ∨ errs = [("_schema", [crossFieldMsg])])) := by
  unfold noRecipientsB at h
  cases hd : schemaDump m with
  | error c =>
    refine ⟨⟨.crash c, ?_⟩, ?_⟩
    · unfold Message.init
      rw [hd, exMapError_error, exBind_error]
    · intro dumped errs out hdump
      cases hdump
  | ok dumped0 =>
    rw [hd] at h
    dsimp only at h
    cases hl : schemaLoadResult dumped0 with
    | error c =>
      refine ⟨⟨.crash c, ?_⟩, ?_⟩
      · unfold Message.init schemaValidate
        rw [hd, exMapError_ok, exBind_ok, hl, exMap_error, exMapError_error, exBind_error]
      · intro dumped errs out hdump hload
        injection hdump with hdeq
        rw [← hdeq, hl] at hload
        cases hload
    | ok pr =>
      obtain ⟨errs0, out0⟩ := pr
      rw [hl] at h
      dsimp only at h
      have hto : optFalsy (alistGet out0 "to") = true := ((Bool.and_eq_true _ _).mp h).1
      have hbcc : optFalsy (alistGet out0 "bcc") = true := ((Bool.and_eq_true _ _).mp h).2
      have hshape := loadResult_shape dumped0 errs0 out0 hl hto hbcc
      have hval : schemaValidate dumped0 = .ok errs0 := by
        unfold schemaValidate
        rw [hl, exMap_ok]
      have hinit : Message.init m = .error (.valueError errs0) :=
        init_of_validate_err m dumped0 errs0 hd hval hshape.1
      refine ⟨⟨_, hinit⟩, ?_⟩
      intro dumped errs out hdump hload
      injection hdump with hdeq
      rw [← hdeq, hl] at hload
      injection hload with hpr
      obtain ⟨he, ho⟩ := Prod.mk.injEq _ _ _ _ |>.mp hpr
      rw [← he]
      exact ⟨hinit, hshape.2⟩

/-- C1 witness: a mapping with a valid date and from but no recipients
fails with exactly the cross-field error. -/
theorem sremail_C1_witness :
    noRecipientsB mNoRecip = true ∧
    Message.init mNoRecip = .error (.valueError [("_schema", [crossFieldMsg])]) := by
  refine ⟨by rfl, ?_⟩
  exact ((sremail_C1_amended mNoRecip (by rfl)).2
    [("Date", PyVal.str "Tue, 12 Nov 2019 15:24:28 +0000"),
     ("From", PyVal.list [PyVal.str "c@d.com"])]
    [("_schema", [crossFieldMsg])]
    [("date", PyVal.dt ⟨2019, 11, 12, 15, 24, 28, some 0⟩),
     ("from_addresses", PyVal.list [PyVal.addr ⟨"", "c@d.com"⟩])]
    (by rfl) (by rfl)).1

/-- C5: when header validation fails, the raised error list is the full
collected result, with an entry for each failing field — for any mapping
whose dump has two fields with invalid values, construction fails with a
list containing the entry of each one. -/
theorem sremail_C5 (m dumped : HDict) (errs : List (String × List String))
    (f1 f2 : FieldSpec) (v1 v2 : PyVal) (msgs1 msgs2 : List String)
    (hdump : schemaDump m = .ok dumped)
    (hf1 : f1 ∈ schemaFields) (hf2 : f2 ∈ schemaFields)
    (hg1 : alistGet dumped (mime_headerize f1.name) = some v1)
    (hg2 : alistGet dumped (mime_headerize f2.name) = some v2)
    (hd1 : fieldDeserialize f1.ftype v1 = .ok (.error msgs1))
    (hd2 : fieldDeserialize f2.ftype v2 = .ok (.error msgs2))
    (hval : schemaValidate dumped = .ok errs) :
    Message.init m = .error (.valueError errs) ∧
    (mime_headerize f1.name, msgs1) ∈ errs ∧ (mime_headerize f2.name, msgs2) ∈ errs := by
  unfold schemaValidate at hval
  cases hlr : schemaLoadResult dumped with
  | error c => rw [hlr, exMap_error] at hval; cases hval
  | ok pr =>
    obtain ⟨errs0, out0⟩ := pr
    rw [hlr, exMap_ok] at hval
    injection hval with hval2
    have hv : schemaValidate dumped = .ok errs0 := by
      unfold schemaValidate
      rw [hlr, exMap_ok]
    unfold schemaLoadResult at hlr
    cases hfold : List.foldlM (loadStep dumped)
        (([], []) : List (String × List String) × HDict) schemaFields with
    | error c => rw [hfold, exBind_error] at hlr; cases hlr
    | ok feo =>
      obtain ⟨fe, fo⟩ := feo
      rw [hfold, exBind_ok] at hlr
      dsimp only at hlr
      injection hlr with hlr2
      obtain ⟨he, ho⟩ := Prod.mk.injEq _ _ _ _ |>.mp hlr2
      have hm1 : (mime_headerize f1.name, msgs1) ∈ fe :=
        loadFold_mem schemaFields dumped ([], []) (fe, fo) f1 v1 msgs1 hf1 hg1 hd1 hfold
      have hm2 : (mime_headerize f2.name, msgs2) ∈ fe :=
        loadFold_mem schemaFields dumped ([], []) (fe, fo) f2 v2 msgs2 hf2 hg2 hd2 hfold
      have hsub : ∀ p, p ∈ fe → p ∈ errs0 := by
        intro p hp
        rw [← he]
        by_cases hc : fe = [] ∧
            optFalsy (alistGet (List.foldl (fun o q => alistSet o q.1 q.2) fo
              (List.filter (fun q => decide (q.1 ∉ schemaDataKeys)) dumped)) "to") = true ∧
            optFalsy (alistGet (List.foldl (fun o q => alistSet o q.1 q.2) fo
              (List.filter (fun q => decide (q.1 ∉ schemaDataKeys)) dumped)) "bcc") = true
        · rw [if_pos hc]
          exact List.mem_append_left _ hp
        · rw [if_neg hc]
          exact hp
      have hne : errs0 ≠ [] := by
        intro hnil
        rw [hnil] at hsub
        cases hsub _ hm1
      rw [← hval2]
      exact ⟨init_of_validate_err m dumped errs0 hdump hv hne, hsub _ hm1, hsub _ hm2⟩

/-- C5 witness: a mapping with invalid addresses in both to and from
raises a list holding one entry per failing field. -/
theorem sremail_C5_witness :
    schemaDump [("to", PyVal.list [PyVal.str "bad"]),
        ("from_addresses", PyVal.list [PyVal.str "alsobad"]),
        ("date", PyVal.dt ⟨2019, 11, 12, 15, 24, 28, some 0⟩)] =
      .ok [("Date", PyVal.str "Tue, 12 Nov 2019 15:24:28 +0000"),
        ("To", PyVal.list [PyVal.str "bad"]),
        ("From", PyVal.list [PyVal.str "alsobad"])] ∧
    Message.init [("to", PyVal.list [PyVal.str "bad"]),
        ("from_addresses", PyVal.list [PyVal.str "alsobad"]),
        ("date", PyVal.dt ⟨2019, 11, 12, 15, 24, 28, some 0⟩)] =
      .error (.valueError [("To", [notValidAddressMsg]), ("From", [notValidAddressMsg])]) ∧
    ("To", [notValidAddressMsg]) ∈ [(("To" : String), [notValidAddressMsg]),
        (("From" : String), [notValidAddressMsg])] ∧
    ("From", [notValidAddressMsg]) ∈ [(("To" : String), [notValidAddressMsg]),
        (("From" : String), [notValidAddressMsg])] := by
  refine ⟨by rfl, ?_⟩
  have h := sremail_C5
    [("to", PyVal.list [PyVal.str "bad"]),
     ("from_addresses", PyVal.list [PyVal.str "alsobad"]),
     ("date", PyVal.dt ⟨2019, 11, 12, 15, 24, 28, some 0⟩)]
    [("Date", PyVal.str "Tue, 12 Nov 2019 15:24:28 +0000"),
     ("To", PyVal.list [PyVal.str "bad"]),
     ("From", PyVal.list [PyVal.str "alsobad"])]
    [("To", [notValidAddressMsg]), ("From", [notValidAddressMsg])]
    ⟨"to", "to", .addressList, false⟩ ⟨"from", "from_addresses", .addressList, true⟩
    (PyVal.list [PyVal.str "bad"]) (PyVal.list [PyVal.str "alsobad"])
    [notValidAddressMsg] [notValidAddressMsg]
    (by rfl) (by decide) (by decide) (by rfl) (by rfl) (by rfl) (by rfl) (by rfl)
  exact ⟨h.1, h.2.1, h.2.2⟩
theorem alistGet_append_ne {α : Type} (d : List (String × α)) (k k2 : String) (v : α)
    (h : k2 ≠ k) : alistGet (d ++ [(k, v)]) k2 = alistGet d k2 := by
  induction d with
  | nil =>
    simp only [List.nil_append, alistGet, List.find?]
    rw [show (decide (k = k2)) = false from by
      simp only [decide_eq_false_iff_not]
      exact fun hh => h hh.symm]
  | cons p t ih =>
    simp only [List.cons_append, alistGet, List.find?]
    cases hd : decide (p.1 = k2) with
    | true => rfl
    | false => exact ih

theorem alistGet_append_self {α : Type} (d : List (String × α)) (k : String) (v : α)
    (h : ∀ p ∈ d, p.1 ≠ k) : alistGet (d ++ [(k, v)]) k = some v := by
  induction d with
  | nil => simp [alistGet, List.find?]
  | cons p t ih =>
    simp only [List.cons_append, alistGet, List.find?]
    rw [show (decide (p.1 = k)) = false from by
      simpa using h p (List.mem_cons_self p t)]
    exact ih (fun q hq => h q (List.mem_cons_of_mem p hq))

theorem alistSet_fresh {α : Type} (d : List (String × α)) (k : String) (v : α)
    (h : ∀ p ∈ d, p.1 ≠ k) : alistSet d k v = d ++ [(k, v)] := by
  induction d with
  | nil => rfl
  | cons p t ih =>
    simp only [alistSet, List.cons_append]
    rw [if_neg (h p (List.mem_cons_self p t))]
    rw [ih (fun q hq => h q (List.mem_cons_of_mem p hq))]

theorem alistGet_alistSet_ne {α : Type} (d : List (String × α)) (k k2 : String) (v : α)
    (h : k2 ≠ k) : alistGet (alistSet d k v) k2 = alistGet d k2 := by
  induction d with
  | nil =>
    simp only [alistSet, alistGet, List.find?]
    rw [show (decide (k = k2)) = false from by
      simp only [decide_eq_false_iff_not]
      exact fun hh => h hh.symm]
  | cons p t ih =>
    simp only [alistSet]
    by_cases hp : p.1 = k
    · rw [if_pos hp]
      simp only [alistGet, List.find?]
      rw [show (decide (p.1 = k2)) = false from by
        simp only [decide_eq_false_iff_not]
        rw [hp]
        exact fun hh => h hh.symm]
    · rw [if_neg hp]
      simp only [alistGet, List.find?]
      cases hd : decide (p.1 = k2) with
      | true => rfl
      | false => exact ih

theorem alistSet_keys {α : Type} (d : List (String × α)) (k : String) (v : α) :
    ∀ p ∈ alistSet d k v, p.1 = k ∨ p.1 ∈ d.map Prod.fst := by
  induction d with
  | nil =>
    intro p hp
    rw [List.mem_singleton.mp hp]
    exact Or.inl rfl
  | cons q t ih =>
    intro p hp
    simp only [alistSet] at hp
    by_cases hq : q.1 = k
    · rw [if_pos hq] at hp
      rcases List.mem_cons.mp hp with heq | hp2
      · rw [heq]
        exact Or.inl hq
      · refine Or.inr ?_
        simp only [List.map_cons, List.mem_cons]
        exact Or.inr (List.mem_map_of_mem Prod.fst hp2)
    · rw [if_neg hq] at hp
      rcases List.mem_cons.mp hp with heq | hp2
      · rw [heq]
        exact Or.inr (by simp)
      · rcases ih p hp2 with h1 | h1
        · exact Or.inl h1
        · refine Or.inr ?_
          simp only [List.map_cons, List.mem_cons]
          exact Or.inr h1

/-- Appending a key no declared field dumps from leaves the dump field
pass unchanged. -/
theorem dumpFold_congr (fields : List FieldSpec) (m : HDict) (k : String) (v : PyVal)
    (hk : ∀ f ∈ fields, f.attr ≠ k) (acc : HDict) :
    List.foldlM (dumpStep (m ++ [(k, v)])) acc fields =
      List.foldlM (dumpStep m) acc fields := by
  induction fields generalizing acc with
  | nil => rfl
  | cons f fs ih =>
    rw [List.foldlM_cons, List.foldlM_cons]
    have hstep : dumpStep (m ++ [(k, v)]) acc f = dumpStep m acc f := by
      unfold dumpStep
      rw [alistGet_append_ne m k f.attr v (hk f (List.mem_cons_self f fs))]
    rw [hstep]
    cases dumpStep m acc f with
    | error c => rw [exBind_error, exBind_error]
    | ok acc2 =>
      rw [exBind_ok, exBind_ok]
      exact ih (fun g hg => hk g (List.mem_cons_of_mem f hg)) acc2

/-- Appending a key no declared field loads from leaves the load field
pass unchanged. -/
theorem loadFold_congr (fields : List FieldSpec) (d : HDict) (ck : String) (v : PyVal)
    (hk : ∀ f ∈ fields, mime_headerize f.name ≠ ck)
    (acc : List (String × List String) × HDict) :
    List.foldlM (loadStep (d ++ [(ck, v)])) acc fields =
      List.foldlM (loadStep d) acc fields := by
  induction fields generalizing acc with
  | nil => rfl
  | cons f fs ih =>
    rw [List.foldlM_cons, List.foldlM_cons]
    have hstep : loadStep (d ++ [(ck, v)]) acc f = loadStep d acc f := by
      unfold loadStep
      rw [alistGet_append_ne d ck (mime_headerize f.name) v (hk f (List.mem_cons_self f fs))]
    rw [hstep]
    cases loadStep d acc f with
    | error c => rw [exBind_error, exBind_error]
    | ok acc2 =>
      rw [exBind_ok, exBind_ok]
      exact ih (fun g hg => hk g (List.mem_cons_of_mem f hg)) acc2

/-- Every key of the dump field pass comes from the accumulator or is the
data key of one of the fields. -/
theorem dumpFold_keys (fields : List FieldSpec) (m : HDict) (acc res : HDict)
    (h : List.foldlM (dumpStep m) acc fields = .ok res) :
    ∀ p ∈ res, p.1 ∈ acc.map Prod.fst ∨
      p.1 ∈ fields.map (fun f => mime_headerize f.name) := by
  induction fields generalizing acc with
  | nil =>
    injection h with h2
    intro p hp
    rw [← h2] at hp
    exact Or.inl (List.mem_map_of_mem Prod.fst hp)
  | cons f fs ih =>
    rw [List.foldlM_cons] at h
    cases hstep : dumpStep m acc f with
    | error c => rw [hstep, exBind_error] at h; cases h
    | ok acc2 =>
      rw [hstep, exBind_ok] at h
      intro p hp
      have hacc2 : ∀ q ∈ acc2, q.1 ∈ acc.map Prod.fst ∨ q.1 = mime_headerize f.name := by
        unfold dumpStep at hstep
        cases hg : alistGet m f.attr with
        | none =>
          rw [hg] at hstep
          injection hstep with h3
          intro q hq
          rw [← h3] at hq
          exact Or.inl (List.mem_map_of_mem Prod.fst hq)
        | some w =>
          rw [hg] at hstep
          dsimp only at hstep
          cases hs : fieldSerialize f.ftype w with
          | error c => rw [hs, exBind_error] at hstep; cases hstep
          | ok sv =>
            rw [hs, exBind_ok] at hstep
            injection hstep with h3
            intro q hq
            rw [← h3] at hq
            rcases alistSet_keys acc (mime_headerize f.name) sv q hq with h4 | h4
            · exact Or.inr h4
            · exact Or.inl h4
      rcases ih acc2 h p hp with h5 | h5
      · rcases List.mem_map.mp h5 with ⟨q, hq, hq2⟩
        rcases hacc2 q hq with h6 | h6
        · exact Or.inl (by rw [← hq2]; exact h6)
        · refine Or.inr ?_
          simp only [List.map_cons, List.mem_cons]
          exact Or.inl (by rw [← hq2, h6])
      · refine Or.inr ?_
        simp only [List.map_cons, List.mem_cons]
        exact Or.inr h5
  
/-- Every key of the unknown-field pass comes from the base or is the
canonicalization of a cached key. -/
theorem cachedFold_keys (cached : HDict) (base : HDict) :
    ∀ p ∈ cached.foldl (fun acc q => alistSet acc (mime_headerize q.1) q.2) base,
      p.1 ∈ base.map Prod.fst ∨ ∃ q ∈ cached, p.1 = mime_headerize q.1 := by
  induction cached generalizing base with
  | nil =>
    intro p hp
    exact Or.inl (List.mem_map_of_mem Prod.fst hp)
  | cons q qs ih =>
    intro p hp
    rw [List.foldl_cons] at hp
    rcases ih (alistSet base (mime_headerize q.1) q.2) p hp with h1 | ⟨r, hr, hr2⟩
    · rcases List.mem_map.mp h1 with ⟨w, hw, hw2⟩
      rcases alistSet_keys base (mime_headerize q.1) q.2 w hw with h3 | h3
      · exact Or.inr ⟨q, List.mem_cons_self q qs, by rw [← hw2, h3]⟩
      · exact Or.inl (by rw [← hw2]; exact h3)
    · exact Or.inr ⟨r, List.mem_cons_of_mem q hr, hr2⟩

/-- Dumping a mapping extended with an unknown key whose canonical form
collides with nothing appends exactly that canonical entry to the dump. -/
theorem schemaDump_append (m : HDict) (k : String) (v : PyVal)
    (hattr : k ∉ schemaAttrs)
    (hck : mime_headerize k ∉ schemaDataKeys)
    (huniq : ∀ p ∈ m, p.1 ∉ schemaAttrs → mime_headerize p.1 ≠ mime_headerize k) :
    schemaDump (m ++ [(k, v)]) =
      (schemaDump m).map (fun d => d ++ [(mime_headerize k, v)]) := by
  unfold schemaDump
  rw [dumpFold_congr schemaFields m k v
    (fun f hf heq => hattr (by rw [← heq]; exact List.mem_map_of_mem _ hf)) []]
  have hfilter : (m ++ [(k, v)]).filter (fun p => decide (p.1 ∉ schemaAttrs)) =
      m.filter (fun p => decide (p.1 ∉ schemaAttrs)) ++ [(k, v)] := by
    rw [List.filter_append]
    congr 1
    simp [hattr]
  rw [hfilter]
  cases hbase : List.foldlM (dumpStep m) ([] : HDict) schemaFields with
  | error c =>
    rw [exBind_error, exBind_error, exMap_error]
  | ok base0 =>
    rw [exBind_ok, exBind_ok]
    rw [List.foldl_append]
    have hfresh : ∀ p ∈ (m.filter (fun p => decide (p.1 ∉ schemaAttrs))).foldl
        (fun acc q => alistSet acc (mime_headerize q.1) q.2) base0,
        p.1 ≠ mime_headerize k := by
      intro p hp
      rcases cachedFold_keys _ base0 p hp with h1 | ⟨q, hq, hq2⟩
      · rcases List.mem_map.mp h1 with ⟨w, hw, hw2⟩
        rcases dumpFold_keys schemaFields m [] base0 hbase w hw with h3 | h3
        · simp at h3
        · intro heq
          apply hck
          rw [← heq, ← hw2]
          exact h3
      · have hqm := List.mem_filter.mp hq
        rw [hq2]
        exact huniq q hqm.1 (by simpa using hqm.2)
    show Except.ok (List.foldl _ _ [(k, v)]) = _
    rw [List.foldl_cons, List.foldl_nil]
    rw [alistSet_fresh _ _ _ hfresh]
    rfl

/-- Loading a dict extended with an entry whose key is no data key and
neither to nor bcc: the errors are unchanged and the entry is merely
included in the output. -/
theorem schemaLoadResult_append (d : HDict) (ck : String) (v : PyVal)
    (hck : ck ∉ schemaDataKeys) (hto : ck ≠ "to") (hbcc : ck ≠ "bcc") :
    schemaLoadResult (d ++ [(ck, v)]) =
      (schemaLoadResult d).map (fun r => (r.1, alistSet r.2 ck v)) := by
  unfold schemaLoadResult
  rw [loadFold_congr schemaFields d ck v
    (fun f hf heq => hck (by rw [← heq]; exact List.mem_map_of_mem _ hf)) ([], [])]
  cases hfold : List.foldlM (loadStep d)
      (([], []) : List (String × List String) × HDict) schemaFields with
  | error c => rw [exBind_error, exBind_error, exMap_error]
  | ok feo =>
    obtain ⟨fe, fo⟩ := feo
    rw [exBind_ok, exBind_ok]
    dsimp only
    have hfilter : (d ++ [(ck, v)]).filter (fun p => decide (p.1 ∉ schemaDataKeys)) =
        d.filter (fun p => decide (p.1 ∉ schemaDataKeys)) ++ [(ck, v)] := by
      rw [List.filter_append]
      congr 1
      simp [hck]
    rw [hfilter, List.foldl_append, List.foldl_cons, List.foldl_nil]
    rw [alistGet_alistSet_ne _ ck "to" v (fun hh => hto hh.symm)]
    rw [alistGet_alistSet_ne _ ck "bcc" v (fun hh => hbcc hh.symm)]
    rfl

/-- Every key of a dump is a data key or the canonicalization of an
unknown input key. -/
theorem schemaDump_keys (m dumped : HDict) (h : schemaDump m = .ok dumped) :
    ∀ p ∈ dumped, p.1 ∈ schemaDataKeys ∨
      ∃ q ∈ m, q.1 ∉ schemaAttrs ∧ p.1 = mime_headerize q.1 := by
  unfold schemaDump at h
  cases hbase : List.foldlM (dumpStep m) ([] : HDict) schemaFields with
  | error c => rw [hbase, exBind_error] at h; cases h
  | ok base0 =>
    rw [hbase, exBind_ok] at h
    injection h with h2
    intro p hp
    rw [← h2] at hp
    rcases cachedFold_keys _ base0 p hp with h1 | ⟨q, hq, hq2⟩
    · rcases List.mem_map.mp h1 with ⟨w, hw, hw2⟩
      rcases dumpFold_keys schemaFields m [] base0 hbase w hw with h3 | h3
      · simp at h3
      · exact Or.inl (by rw [← hw2]; exact h3)
    · have hqm := List.mem_filter.mp hq
      exact Or.inr ⟨q, hqm.1, by simpa using hqm.2, hq2⟩

/-- A successful construction decomposed: the dump, an empty validation
result, and the stored headers. -/
theorem init_ok_inv (m : HDict) (msg : Message) (h : Message.init m = .ok msg) :
    ∃ dumped, schemaDump m = .ok dumped ∧ schemaValidate dumped = .ok [] ∧
      msg = ⟨dumped, []⟩ := by
  unfold Message.init at h
  cases hd : schemaDump m with
  | error c => rw [hd, exMapError_error, exBind_error] at h; cases h
  | ok dumped =>
    rw [hd, exMapError_ok, exBind_ok] at h
    cases hv : schemaValidate dumped with
    | error c => rw [hv, exMapError_error, exBind_error] at h; cases h
    | ok errs =>
      rw [hv, exMapError_ok, exBind_ok] at h
      by_cases hlen : errs.length > 0
      · rw [if_pos hlen] at h
        cases h
      · rw [if_neg hlen] at h
        have h3 : Except.ok (Message.mk dumped []) = Except.ok msg := h
        injection h3 with h2
        have herrs : errs = [] := List.length_eq_zero.mp (by omega)
        exact ⟨dumped, rfl, by rw [hv, herrs], by rw [← h2]⟩

/-- The converse construction: a clean validation of the dump stores the
dump as the headers. -/
theorem init_ok_intro (m dumped : HDict) (hd : schemaDump m = .ok dumped)
    (hv : schemaValidate dumped = .ok []) :
    Message.init m = .ok ⟨dumped, []⟩ := by
  unfold Message.init
  rw [hd, exMapError_ok, exBind_ok, hv, exMapError_ok, exBind_ok, if_neg (by simp)]
  rfl

/-- C6 counterexample: dATE is not a recognized field name, yet
constructing an otherwise valid message with the extra field dATE set to
bogus fails — its canonicalized key Date collides with the data key of
the recognized date field, overwrites the dumped date, and validation
rejects it. -/
theorem sremail_C6_counterexample :
    Message.init [("to", PyVal.list [PyVal.str "t@e.com"]),
      ("from_addresses", PyVal.list [PyVal.str "a@b.com"]),
      ("date", PyVal.dt ⟨2019, 11, 12, 15, 24, 28, some 0⟩),
      ("dATE", PyVal.str "bogus")] =
      .error (.valueError [("Date", ["Not a valid datetime."])]) ∧
    "dATE" ∉ ["date", "from", "sender", "reply_to", "to", "cc", "bcc"] ∧
    mime_headerize "dATE" = "Date" := by
  exact ⟨rfl, by decide, rfl⟩

/-- C6 (amended): an unrecognized field whose canonicalized key collides
neither with a recognized data key nor with the canonicalization of
another supplied key never makes validation fail, and its value appears
unchanged in the dumped headers (and in the headers of a successfully
constructed Message) under the canonicalized key obtained by splitting on
underscores, title-casing and joining with hyphens. -/
theorem sremail_C6_amended (m : HDict) (k : String) (v : PyVal)
    (hattr : k ∉ schemaAttrs)
    (hck : mime_headerize k ∉ schemaDataKeys)
    (hto : mime_headerize k ≠ "to") (hbcc : mime_headerize k ≠ "bcc")
    (huniq : ∀ p ∈ m, p.1 ∉ schemaAttrs → mime_headerize p.1 ≠ mime_headerize k) :
    (∀ dumped, schemaDump m = .ok dumped →
      schemaDump (m ++ [(k, v)]) = .ok (dumped ++ [(mime_headerize k, v)]) ∧
      schemaValidate (dumped ++ [(mime_headerize k, v)]) = schemaValidate dumped ∧
      alistGet (dumped ++ [(mime_headerize k, v)]) (mime_headerize k) = some v) ∧
    (∀ msg, Message.init m = .ok msg →
      Message.init (m ++ [(k, v)]) = .ok ⟨msg.headers ++ [(mime_headerize k, v)], []⟩) := by
  have hdumpAppend := schemaDump_append m k v hattr hck huniq
  have hpart1 : ∀ dumped, schemaDump m = .ok dumped →
      schemaDump (m ++ [(k, v)]) = .ok (dumped ++ [(mime_headerize k, v)]) ∧
      schemaValidate (dumped ++ [(mime_headerize k, v)]) = schemaValidate dumped ∧
      alistGet (dumped ++ [(mime_headerize k, v)]) (mime_headerize k) = some v := by
    intro dumped hd
    refine ⟨by rw [hdumpAppend, hd, exMap_ok], ?_, ?_⟩
    · unfold schemaValidate
      rw [schemaLoadResult_append dumped (mime_headerize k) v hck hto hbcc]
      cases schemaLoadResult dumped with
      | error c => rfl
      | ok r => rfl
    · apply alistGet_append_self
      intro p hp
      rcases schemaDump_keys m dumped hd p hp with h1 | ⟨q, hq, hq2, hq3⟩
      · intro heq
        exact hck (by rw [← heq]; exact h1)
      · rw [hq3]
        exact huniq q hq hq2
  refine ⟨hpart1, ?_⟩
  intro msg hinit
  obtain ⟨dumped, hd, hv, hmsg⟩ := init_ok_inv m msg hinit
  obtain ⟨hda, hva, _⟩ := hpart1 dumped hd
  have := init_ok_intro (m ++ [(k, v)]) (dumped ++ [(mime_headerize k, v)]) hda
    (by rw [hva, hv])
  rw [this, hmsg]

/-- C6 witness: the unknown field x_custom passes through an otherwise
valid construction as X-Custom with its value intact. -/
theorem sremail_C6_witness :
    ("x_custom" ∉ schemaAttrs ∧ mime_headerize "x_custom" ∉ schemaDataKeys) ∧
    Message.init [("to", PyVal.list [PyVal.str "t@e.com"]),
        ("from_addresses", PyVal.list [PyVal.str "a@b.com"]),
        ("date", PyVal.dt ⟨2019, 11, 12, 15, 24, 28, some 0⟩),
        ("x_custom", PyVal.str "test")] =
      .ok ⟨[("Date", PyVal.str "Tue, 12 Nov 2019 15:24:28 +0000"),
        ("To", PyVal.list [PyVal.str "t@e.com"]),
        ("From", PyVal.list [PyVal.str "a@b.com"]),
        ("X-Custom", PyVal.str "test")], []⟩ := by
  refine ⟨⟨by decide, by decide⟩, ?_⟩
  have h := (sremail_C6_amended
    [("to", PyVal.list [PyVal.str "t@e.com"]),
     ("from_addresses", PyVal.list [PyVal.str "a@b.com"]),
     ("date", PyVal.dt ⟨2019, 11, 12, 15, 24, 28, some 0⟩)]
    "x_custom" (PyVal.str "test")
    (by decide) (by decide) (by decide) (by decide) (by decide)).2
    ⟨[("Date", PyVal.str "Tue, 12 Nov 2019 15:24:28 +0000"),
      ("To", PyVal.list [PyVal.str "t@e.com"]),
      ("From", PyVal.list [PyVal.str "a@b.com"])], []⟩ (by rfl)
  exact h

theorem sendLoop_spec (fails : Nat → Bool) (msgs : List Message) (i0 : Nat) :
    ∃ k, k ≤ msgs.length ∧
      (sendLoop fails msgs i0).1 = (msgs.take k).filterMap
        (fun m => ((Message.as_mime m).1.toOption).map SmtpEvent.send) ∧
      (∀ m ∈ msgs.take k, ∃ mail, (Message.as_mime m).1 = .ok mail) ∧
      (∀ j, j < k → fails (i0 + j) = false) ∧
      ((sendLoop fails msgs i0).2 = if k = msgs.length then none else some (i0 + k)) ∧
      (k < msgs.length →
        fails (i0 + k) = true ∨ ∃ c, (Message.as_mime (msgs.getD k ⟨[], []⟩)).1 = .error c) := by
  induction msgs generalizing i0 with
  | nil =>
    exact ⟨0, by simp, by simp [sendLoop], by simp, by simp, by simp [sendLoop], by simp⟩
  | cons m rest ih =>
    cases ha : (Message.as_mime m).1 with
    | error c =>
      refine ⟨0, by simp, ?_, by simp, by simp, ?_, ?_⟩
      · simp [sendLoop, ha]
      · simp [sendLoop, ha]
      · intro _
        exact Or.inr ⟨c, by simpa using ha⟩
    | ok mail =>
      by_cases hf : fails i0 = true
      · refine ⟨0, by simp, ?_, by simp, by simp, ?_, ?_⟩
        · simp [sendLoop, ha, hf]
        · simp [sendLoop, ha, hf]
        · intro _
          exact Or.inl (by simpa using hf)
      · obtain ⟨k2, hk2len, hk2evs, hk2rend, hk2fail, hk2err, hk2last⟩ := ih (i0 + 1)
        have hstep : sendLoop fails (m :: rest) i0 =
            (SmtpEvent.send mail :: (sendLoop fails rest (i0 + 1)).1,
             (sendLoop fails rest (i0 + 1)).2) := by
          conv =>
            lhs
            rw [sendLoop]
          rw [ha]
          dsimp only
          rw [if_neg hf]
        refine ⟨k2 + 1, by simpa using hk2len, ?_, ?_, ?_, ?_, ?_⟩
        · rw [hstep]
          simp only [List.take_succ_cons, List.filterMap_cons, ha]
          rw [hk2evs]
          rfl
        · intro w hw
          rcases List.mem_cons.mp (by simpa using hw) with rfl | hw2
          · exact ⟨mail, ha⟩
          · exact hk2rend w hw2
        · intro j hj
          cases j with
          | zero => simpa using (Bool.not_eq_true _).mp hf
          | succ j2 =>
            have := hk2fail j2 (by omega)
            have heq : i0 + 1 + j2 = i0 + (j2 + 1) := by omega
            rw [heq] at this
            exact this
        · rw [hstep]
          dsimp only
          rw [hk2err]
          by_cases hk : k2 = rest.length
          · rw [if_pos hk, if_pos (by simp only [List.length_cons]; omega)]
          · rw [if_neg hk, if_neg (by simp only [List.length_cons]; omega)]
            congr 1
            omega
        · intro hlt
          have hlt2 : k2 < rest.length := by simpa using hlt
          rcases hk2last hlt2 with h1 | ⟨c, h1⟩
          · exact Or.inl (by rw [show i0 + (k2 + 1) = i0 + 1 + k2 from by omega]; exact h1)
          · exact Or.inr ⟨c, by simpa using h1⟩

/-- C8: send_all opens exactly one SMTP session for the whole batch (the
trace starts with the single connect and ends with the single quit, on
every exit path), sends the rendered messages of an order-preserving
prefix of the input, never sends past the first failure, and propagates
that failure (the returned index) while the session is still closed. -/
theorem sremail_C8 (fails : Nat → Bool) (messages : List Message) (smtp_url : String) :
    ∃ k, k ≤ messages.length ∧
      (send_all fails messages smtp_url).1 =
        SmtpEvent.connect smtp_url ::
          ((messages.take k).filterMap
            (fun m => ((Message.as_mime m).1.toOption).map SmtpEvent.send) ++
            [SmtpEvent.quit]) ∧
      (send_all fails messages smtp_url).1.count (SmtpEvent.connect smtp_url) = 1 ∧
      (send_all fails messages smtp_url).1.count SmtpEvent.quit = 1 ∧
      (∀ j, j < k → fails j = false) ∧
      ((send_all fails messages smtp_url).2 =
        if k = messages.length then none else some k) ∧
      (k < messages.length →
        fails k = true ∨ ∃ c, (Message.as_mime (messages.getD k ⟨[], []⟩)).1 = .error c) := by
  obtain ⟨k, hlen, hevs, hrend, hfail, herr, hlast⟩ := sendLoop_spec fails messages 0
  have hta : (send_all fails messages smtp_url).1 =
      SmtpEvent.connect smtp_url :: ((sendLoop fails messages 0).1 ++ [SmtpEvent.quit]) := rfl
  have hsends : ∀ e ∈ (sendLoop fails messages 0).1, ∃ mail, e = SmtpEvent.send mail := by
    rw [hevs]
    intro e he
    rcases List.mem_filterMap.mp he with ⟨m, _, hm⟩
    rcases Option.map_eq_some'.mp hm with ⟨mail, _, hmail⟩
    exact ⟨mail, hmail.symm⟩
  have hcconn : (sendLoop fails messages 0).1.count (SmtpEvent.connect smtp_url) = 0 :=
    List.count_eq_zero.mpr (fun hmem => by
      rcases hsends _ hmem with ⟨mail, hq⟩
      exact SmtpEvent.noConfusion hq)
  have hcquit : (sendLoop fails messages 0).1.count SmtpEvent.quit = 0 :=
    List.count_eq_zero.mpr (fun hmem => by
      rcases hsends _ hmem with ⟨mail, hq⟩
      exact SmtpEvent.noConfusion hq)
  refine ⟨k, hlen, ?_, ?_, ?_, ?_, ?_, ?_⟩
  · rw [hta, hevs]
  · rw [hta]
    rw [List.count_cons_self, List.count_append, hcconn]
    simp
  · rw [hta, List.count_cons, List.count_append, hcquit]
    simp
  · intro j hj
    simpa using hfail j hj
  · have : (send_all fails messages smtp_url).2 = (sendLoop fails messages 0).2 := rfl
    rw [this, herr]
    simp
  · intro hlt
    rcases hlast hlt with h1 | h1
    · exact Or.inl (by simpa using h1)
    · exact Or.inr h1

/-- gotonext on an empty field is the identity at any fuel. -/
theorem gotonext_nil (fuel : Nat) (cl : List (List Char)) :
    gotonext fuel ⟨[], cl⟩ = ([], ⟨[], cl⟩) := by
  cases fuel <;> rfl

/-- gotonext stops immediately at a character that is neither folding
whitespace nor an opening parenthesis, at any fuel. -/
theorem gotonext_imm (fuel : Nat) (c : Char) (cs : List Char) (cl : List (List Char))
    (h1 : c ∉ fwsChars) (h2 : c ≠ '(') :
    gotonext fuel ⟨c :: cs, cl⟩ = ([], ⟨c :: cs, cl⟩) := by
  cases fuel with
  | zero => rfl
  | succ f => simp [gotonext, h1, h2]

theorem goodAtomChar_not_mem_atomends {c : Char} (h : goodAtomChar c) :
    c ∉ atomendsChars := h.1

/-- Every phrase delimiter is an atom delimiter. -/
theorem goodAtomChar_not_mem_phraseends {c : Char} (h : goodAtomChar c) :
    c ∉ phraseendsChars := by
  intro hm
  exact h.1 ((by decide : ∀ a ∈ phraseendsChars, a ∈ atomendsChars) c hm)

theorem goodAtomChar_not_mem_fws {c : Char} (h : goodAtomChar c) :
    c ∉ fwsChars := by
  intro hm
  exact h.1 ((by decide : ∀ a ∈ fwsChars, a ∈ atomendsChars) c hm)

theorem goodAtomChar_not_mem_lws {c : Char} (h : goodAtomChar c) :
    c ∉ lwsChars := by
  intro hm
  exact h.1 ((by decide : ∀ a ∈ lwsChars, a ∈ atomendsChars) c hm)

/-- A delimiter-free character differs from every atom delimiter. -/
theorem goodAtomChar_ne {c : Char} (h : goodAtomChar c) {d : Char}
    (hd : d ∈ atomendsChars) : c ≠ d :=
  fun he => h.1 (he ▸ hd)

/-- A delimiter-free character is ascii. -/
theorem goodAtomChar_ascii {c : Char} (h : goodAtomChar c) : c.toNat < 128 :=
  h.2.2.2

/-- A delimiter-free character is none that formataddr quotes over. -/
theorem goodAtomChar_not_special {c : Char} (h : goodAtomChar c) :
    c ∉ formataddrSpecials := by
  intro hm
  obtain ⟨h1, h2, _⟩ := h
  have : c ∈ atomendsChars ∨ c = '\\' := by
    simp only [formataddrSpecials, List.mem_cons, List.not_mem_nil, or_false] at hm
    rcases hm with rfl|rfl|rfl|rfl|rfl|rfl|rfl|rfl|rfl|rfl|rfl|rfl|rfl
    all_goals first
      | exact Or.inr rfl
      | exact Or.inl (by decide)
  rcases this with hc | hc
  · exact h1 hc
  · exact h2 hc

/-- getatom consumes exactly a delimiter-free prefix, stopping at the end
of the field or at the first delimiter. -/
theorem getatom_spec (ends : List Char) (w rest : List Char)
    (hw : ∀ c ∈ w, c ∉ ends)
    (hr : rest = [] ∨ ∃ d ds, rest = d :: ds ∧ d ∈ ends) :
    getatom ends (w ++ rest) = (w, rest) := by
  induction w with
  | nil =>
    rcases hr with rfl | ⟨d, ds, rfl, hd⟩
    · rfl
    · simp [getatom, hd]
  | cons c w ih =>
    have hc : c ∉ ends := hw c (List.mem_cons_self c w)
    have ih2 := ih (fun x hx => hw x (List.mem_cons_of_mem c hx))
    simp only [List.cons_append, getatom]
    rw [if_neg hc]
    exact congrArg (fun r => (c :: r.1, r.2)) ih2

/-- A delimiter-free atom is not all whitespace. -/
theorem pyAllWs_false_of_good {a : List Char} (h : goodAtom a) :
    pyAllWs a = false := by
  obtain ⟨hne, hall⟩ := h
  cases a with
  | nil => exact absurd rfl hne
  | cons c cs =>
    have hc : pyIsSpace c = false :=
      Bool.eq_false_iff.mpr (hall c (List.mem_cons_self c cs)).2.2.1
    simp [pyAllWs, hc]

/-- Splitting the space-joined words back out: each word carries one
trailing separator once something follows the last word. -/
theorem joinSp_sep (X : List Char) :
    ∀ words : List (List Char), words ≠ [] →
      joinSp words ++ ' ' :: X = (words.map (fun w => w ++ [' '])).flatten ++ X
  | [], h => absurd rfl h
  | [w], _ => by simp [joinSp]
  | w :: w2 :: ws, _ => by
    have ih := joinSp_sep X (w2 :: ws) (by simp)
    simp only [joinSp, List.map_cons, List.flatten_cons, List.cons_append, List.append_assoc]
    rw [ih]
    simp

/-- Every character of a space-join is a space or a word character. -/
theorem mem_joinSp :
    ∀ (l : List (List Char)) (c : Char), c ∈ joinSp l → c = ' ' ∨ ∃ w ∈ l, c ∈ w
  | [], c, h => by simp [joinSp] at h
  | [w], c, h => Or.inr ⟨w, by simp, by simpa [joinSp] using h⟩
  | w :: w2 :: ws, c, h => by
    simp only [joinSp, List.mem_append, List.mem_cons] at h
    rcases h with h | h | h
    · exact Or.inr ⟨w, by simp, h⟩
    · exact Or.inl h
    · rcases mem_joinSp (w2 :: ws) c h with h2 | ⟨w3, hw3, hc⟩
      · exact Or.inl h2
      · exact Or.inr ⟨w3, by simp [List.mem_cons] at hw3 ⊢; tauto, hc⟩

/-- A nonempty space-join of delimiter-free atoms starts with a
delimiter-free character. -/
theorem joinSp_head (l : List (List Char)) (h0 : l ≠ []) (hg : ∀ w ∈ l, goodAtom w) :
    ∃ c cs, joinSp l = c :: cs ∧ goodAtomChar c := by
  match l with
  | [] => exact absurd rfl h0
  | w :: ws =>
    obtain ⟨hne, hall⟩ := hg w (List.mem_cons_self w ws)
    match w, hne with
    | c :: w2, _ =>
      have hc : goodAtomChar c := hall c (List.mem_cons_self c w2)
      match ws with
      | [] => exact ⟨c, w2, rfl, hc⟩
      | w3 :: ws2 => exact ⟨c, w2 ++ ' ' :: joinSp (w3 :: ws2), rfl, hc⟩

/-- A nonempty dot-join of delimiter-free atoms starts with a
delimiter-free character. -/
theorem dotJoin_head (l : List (List Char)) (h0 : l ≠ []) (hg : ∀ w ∈ l, goodAtom w) :
    ∃ c cs, dotJoin l = c :: cs ∧ goodAtomChar c := by
  match l with
  | [] => exact absurd rfl h0
  | w :: ws =>
    obtain ⟨hne, hall⟩ := hg w (List.mem_cons_self w ws)
    match w, hne with
    | c :: w2, _ =>
      have hc : goodAtomChar c := hall c (List.mem_cons_self c w2)
      match ws with
      | [] => exact ⟨c, w2, rfl, hc⟩
      | w3 :: ws2 => exact ⟨c, w2 ++ '.' :: dotJoin (w3 :: ws2), rfl, hc⟩

/-- A nonempty dot-join of nonempty atoms is nonempty. -/
theorem dotJoin_ne_nil (l : List (List Char)) (h0 : l ≠ []) (hg : ∀ w ∈ l, goodAtom w) :
    dotJoin l ≠ [] := by
  obtain ⟨c, cs, he, _⟩ := dotJoin_head l h0 hg
  simp [he]

/-- Every character of a dot-join is a dot or a word character. -/
theorem mem_dotJoin :
    ∀ (l : List (List Char)) (c : Char), c ∈ dotJoin l → c = '.' ∨ ∃ w ∈ l, c ∈ w
  | [], c, h => by simp [dotJoin] at h
  | [w], c, h => Or.inr ⟨w, by simp, by simpa [dotJoin] using h⟩
  | w :: w2 :: ws, c, h => by
    simp only [dotJoin, List.mem_append, List.mem_cons] at h
    rcases h with h | h | h
    · exact Or.inr ⟨w, by simp, h⟩
    · exact Or.inl h
    · rcases mem_dotJoin (w2 :: ws) c h with h2 | ⟨w3, hw3, hc⟩
      · exact Or.inl h2
      · exact Or.inr ⟨w3, by simp [List.mem_cons] at hw3 ⊢; tauto, hc⟩

/-- Flattening the aslist pieces of a dotted local part gives the
dot-join of its atoms. -/
theorem flatten_dotPieces :
    ∀ l : List (List Char), (dotPieces l).flatten = dotJoin l
  | [] => rfl
  | [a] => by simp [dotPieces, dotJoin]
  | a :: b :: rest => by
    simp only [dotPieces, dotJoin, List.flatten_cons]
    rw [flatten_dotPieces (b :: rest)]
    simp

/-- Nonempty words make the space-join grow at least two characters per
word, up to the missing last separator. -/
theorem joinSp_length :
    ∀ l : List (List Char), (∀ w ∈ l, w ≠ []) → 2 * l.length ≤ (joinSp l).length + 1
  | [], _ => by simp [joinSp]
  | [w], h => by
    have := h w (by simp)
    have : 1 ≤ w.length := by
      cases w with
      | nil => exact absurd rfl this
      | cons c cs => simp
    simp [joinSp]; omega
  | w :: w2 :: ws, h => by
    have ih := joinSp_length (w2 :: ws) (fun x hx => h x (List.mem_cons_of_mem w hx))
    have hw : 1 ≤ w.length := by
      have := h w (by simp)
      cases w with
      | nil => exact absurd rfl this
      | cons c cs => simp
    simp only [joinSp, List.length_append, List.length_cons] at ih ⊢
    omega

theorem dotJoin_length :
    ∀ l : List (List Char), (∀ w ∈ l, w ≠ []) → 2 * l.length ≤ (dotJoin l).length + 1
  | [], _ => by simp [dotJoin]
  | [w], h => by
    have := h w (by simp)
    have : 1 ≤ w.length := by
      cases w with
      | nil => exact absurd rfl this
      | cons c cs => simp
    simp [dotJoin]; omega
  | w :: w2 :: ws, h => by
    have ih := dotJoin_length (w2 :: ws) (fun x hx => h x (List.mem_cons_of_mem w hx))
    have hw : 1 ≤ w.length := by
      have := h w (by simp)
      cases w with
      | nil => exact absurd rfl this
      | cons c cs => simp
    simp only [dotJoin, List.length_append, List.length_cons] at ih ⊢
    omega

/-- escapeName acts as the identity on a name free of backslashes and
double quotes. -/
theorem escapeName_id :
    ∀ l : List Char, (∀ c ∈ l, c ≠ '\\' ∧ c ≠ '"') → escapeName l = l
  | [], _ => rfl
  | c :: cs, h => by
    have hc := h c (List.mem_cons_self c cs)
    simp only [escapeName]
    rw [if_neg (by tauto)]
    rw [escapeName_id cs (fun x hx => h x (List.mem_cons_of_mem c hx))]
    rfl

/-- One getphraselist step at a delimiter-free character: an atom is
taken and the loop continues after it. -/
theorem getphraselist_atom (f : Nat) (c : Char) (cs : List Char) (cl : List (List Char))
    (hc : goodAtomChar c) :
    getphraselist (f + 1) ⟨c :: cs, cl⟩ =
      ((getatom phraseendsChars (c :: cs)).1 ::
        (getphraselist f ⟨(getatom phraseendsChars (c :: cs)).2, cl⟩).1,
       (getphraselist f ⟨(getatom phraseendsChars (c :: cs)).2, cl⟩).2) := by
  simp only [getphraselist]
  rw [if_neg (goodAtomChar_not_mem_fws hc),
      if_neg (goodAtomChar_ne hc (by decide : '"' ∈ atomendsChars)),
      if_neg (goodAtomChar_ne hc (by decide : '(' ∈ atomendsChars)),
      if_neg (goodAtomChar_not_mem_phraseends hc)]

/-- One getphraselist step at a space: skipped. -/
theorem getphraselist_space (f : Nat) (cs : List Char) (cl : List (List Char)) :
    getphraselist (f + 1) ⟨' ' :: cs, cl⟩ = getphraselist f ⟨cs, cl⟩ := by
  simp only [getphraselist]
  rw [if_pos (by decide : ' ' ∈ fwsChars)]

/-- getphraselist stops at an opening angle bracket. -/
theorem getphraselist_stop (f : Nat) (cs : List Char) (cl : List (List Char)) :
    getphraselist (f + 1) ⟨'<' :: cs, cl⟩ = ([], ⟨'<' :: cs, cl⟩) := by
  simp [getphraselist, fwsChars, phraseendsChars, specialsChars]

/-- getphraselist over a run of delimiter-free atoms, each followed by
one space, stopping at the opening angle bracket. -/
theorem getphraselist_run :
    ∀ (words : List (List Char)) (fuel : Nat) (tail : List Char) (cl : List (List Char)),
      (∀ w ∈ words, goodAtom w) → 2 * words.length + 1 ≤ fuel →
      getphraselist fuel ⟨(words.map (fun w => w ++ [' '])).flatten ++ '<' :: tail, cl⟩ =
        (words, ⟨'<' :: tail, cl⟩)
  | [], fuel, tail, cl, _, hf => by
    match fuel, hf with
    | f + 1, _ =>
      simpa using getphraselist_stop f tail cl
  | w :: ws, fuel, tail, cl, hg, hf => by
    obtain ⟨hne, hall⟩ := hg w (List.mem_cons_self w ws)
    match fuel, hf with
    | f + 2, hf2 =>
      have hrem : ((w :: ws).map (fun x => x ++ [' '])).flatten ++ '<' :: tail =
          w ++ ' ' :: ((ws.map (fun x => x ++ [' '])).flatten ++ '<' :: tail) := by
        simp [List.append_assoc]
      rw [hrem]
      have hatom : getatom phraseendsChars
          (w ++ ' ' :: ((ws.map (fun x => x ++ [' '])).flatten ++ '<' :: tail)) =
          (w, ' ' :: ((ws.map (fun x => x ++ [' '])).flatten ++ '<' :: tail)) := by
        apply getatom_spec
        · exact fun x hx => goodAtomChar_not_mem_phraseends (hall x hx)
        · exact Or.inr ⟨' ', _, rfl, by decide⟩
      match w, hne, hall, hatom with
      | c :: w2, _, hall2, hatom2 =>
        have hc : goodAtomChar c := hall2 c (List.mem_cons_self c w2)
        have hatom3 : getatom phraseendsChars
            (c :: (w2 ++ ' ' :: ((ws.map (fun x => x ++ [' '])).flatten ++ '<' :: tail))) =
            (c :: w2, ' ' :: ((ws.map (fun x => x ++ [' '])).flatten ++ '<' :: tail)) := hatom2
        show getphraselist (f + 1 + 1)
            ⟨c :: (w2 ++ ' ' :: ((ws.map (fun x => x ++ [' '])).flatten ++ '<' :: tail)), cl⟩ = _
        rw [getphraselist_atom (f + 1) c _ cl hc, hatom3, getphraselist_space f _ cl,
            getphraselist_run ws f tail cl
              (fun x hx => hg x (List.mem_cons_of_mem _ hx))
              (by simp only [List.length_cons] at hf2; omega)]

/-- One getaddrspecLoop step at a delimiter-free character: an atom. -/
theorem getaddrspecLoop_atom (f : Nat) (acc : List (List Char)) (c : Char)
    (cs : List Char) (cl : List (List Char)) (hc : goodAtomChar c) :
    getaddrspecLoop (f + 1) acc ⟨c :: cs, cl⟩ =
      getaddrspecLoop f
        ((acc ++ [(getatom atomendsChars (c :: cs)).1]) ++
          if (gotonext f ⟨(getatom atomendsChars (c :: cs)).2, cl⟩).1 ≠ [] then
            [(gotonext f ⟨(getatom atomendsChars (c :: cs)).2, cl⟩).1] else [])
        (gotonext f ⟨(getatom atomendsChars (c :: cs)).2, cl⟩).2 := by
  simp only [getaddrspecLoop]
  rw [if_neg (goodAtomChar_ne hc (by decide : '.' ∈ atomendsChars)),
      if_neg (goodAtomChar_ne hc (by decide : '"' ∈ atomendsChars)),
      if_neg (goodAtomChar_not_mem_atomends hc)]

/-- One getaddrspecLoop step at a dot. -/
theorem getaddrspecLoop_dot (f : Nat) (acc : List (List Char)) (cs : List Char)
    (cl : List (List Char)) (hl : ¬(acc ≠ [] ∧ pyAllWs (acc.getLastD []) = true)) :
    getaddrspecLoop (f + 1) acc ⟨'.' :: cs, cl⟩ =
      getaddrspecLoop f (acc ++ [['.']]) (gotonext f ⟨cs, cl⟩).2 := by
  simp only [getaddrspecLoop]
  rw [if_pos trivial, if_neg hl]

/-- getaddrspecLoop stops at the at sign, with no trailing trim when the
last collected piece is not all whitespace. -/
theorem getaddrspecLoop_stop (f : Nat) (acc : List (List Char)) (cs : List Char)
    (cl : List (List Char)) (hl : ¬(acc ≠ [] ∧ pyAllWs (acc.getLastD []) = true)) :
    getaddrspecLoop (f + 1) acc ⟨'@' :: cs, cl⟩ = (acc, ⟨'@' :: cs, cl⟩) := by
  simp only [getaddrspecLoop]
  rw [if_neg (by decide : ¬('@' : Char) = '.'), if_neg (by decide : ¬('@' : Char) = '"'),
      if_pos (by decide : ('@' : Char) ∈ atomendsChars), if_neg hl]

/-- The local-part loop over a dotted run of delimiter-free atoms,
stopping at the at sign: one aslist entry per atom and per dot. -/
theorem getaddrspecLoop_atoms :
    ∀ (latoms : List (List Char)) (fuel : Nat) (acc : List (List Char))
      (cl : List (List Char)) (rest2 : List Char),
      (∀ w ∈ latoms, goodAtom w) → latoms ≠ [] → 2 * latoms.length ≤ fuel →
      getaddrspecLoop fuel acc ⟨dotJoin latoms ++ '@' :: rest2, cl⟩ =
        (acc ++ dotPieces latoms, ⟨'@' :: rest2, cl⟩)
  | [], _, _, _, _, _, h0, _ => absurd rfl h0
  | [a], fuel, acc, cl, rest2, hg, _, hf => by
    obtain ⟨hne, hall⟩ := hg a (List.mem_cons_self a [])
    have hatom : getatom atomendsChars (a ++ '@' :: rest2) = (a, '@' :: rest2) := by
      apply getatom_spec
      · exact fun x hx => goodAtomChar_not_mem_atomends (hall x hx)
      · exact Or.inr ⟨'@', _, rfl, by decide⟩
    match fuel, hf with
    | f + 2, _ =>
      match a, hne, hall, hatom with
      | c :: a2, _, hall2, hatom2 =>
        have hc : goodAtomChar c := hall2 c (List.mem_cons_self c a2)
        have hatom3 : getatom atomendsChars (c :: (a2 ++ '@' :: rest2)) =
            (c :: a2, '@' :: rest2) := hatom2
        show getaddrspecLoop (f + 1 + 1) acc ⟨c :: (a2 ++ '@' :: rest2), cl⟩ = _
        rw [getaddrspecLoop_atom (f + 1) acc c _ cl hc, hatom3,
            gotonext_imm (f + 1) '@' rest2 cl (by decide) (by decide)]
        simp only [ne_eq, not_true_eq_false, if_neg, List.append_nil, reduceIte]
        rw [getaddrspecLoop_stop f (acc ++ [c :: a2]) rest2 cl]
        · simp [dotPieces]
        · intro h2
          rw [List.getLastD_concat] at h2
          exact absurd h2.2 (by simp [pyAllWs_false_of_good (hg (c :: a2) (by simp))])
  | a :: b :: latoms2, fuel, acc, cl, rest2, hg, _, hf => by
    obtain ⟨hne, hall⟩ := hg a (List.mem_cons_self a _)
    have hbhead := dotJoin_head (b :: latoms2) (by simp)
      (fun x hx => hg x (List.mem_cons_of_mem a hx))
    obtain ⟨d, ds, hds, hd⟩ := hbhead
    have hrem : dotJoin (a :: b :: latoms2) ++ '@' :: rest2 =
        a ++ '.' :: (dotJoin (b :: latoms2) ++ '@' :: rest2) := by
      simp [dotJoin, List.append_assoc]
    have hatom : getatom atomendsChars (a ++ '.' :: (dotJoin (b :: latoms2) ++ '@' :: rest2)) =
        (a, '.' :: (dotJoin (b :: latoms2) ++ '@' :: rest2)) := by
      apply getatom_spec
      · exact fun x hx => goodAtomChar_not_mem_atomends (hall x hx)
      · exact Or.inr ⟨'.', _, rfl, by decide⟩
    match fuel, hf with
    | f + 3, hf3 =>
      match a, hne, hall, hatom with
      | c :: a2, _, hall2, hatom2 =>
        have hc : goodAtomChar c := hall2 c (List.mem_cons_self c a2)
        have hatom3 : getatom atomendsChars
            (c :: (a2 ++ '.' :: (dotJoin (b :: latoms2) ++ '@' :: rest2))) =
            (c :: a2, '.' :: (dotJoin (b :: latoms2) ++ '@' :: rest2)) := hatom2
        rw [hrem]
        show getaddrspecLoop (f + 2 + 1) acc
          ⟨c :: (a2 ++ '.' :: (dotJoin (b :: latoms2) ++ '@' :: rest2)), cl⟩ = _
        rw [getaddrspecLoop_atom (f + 2) acc c _ cl hc, hatom3,
            gotonext_imm (f + 2) '.' _ cl (by decide) (by decide)]
        simp only [ne_eq, not_true_eq_false, if_neg, List.append_nil, reduceIte]
        rw [show f + 2 = f + 1 + 1 from rfl,
            getaddrspecLoop_dot (f + 1) (acc ++ [c :: a2]) _ cl (by
              intro h2
              rw [List.getLastD_concat] at h2
              exact absurd h2.2 (by simp [pyAllWs_false_of_good (hg (c :: a2) (by simp))]))]
        rw [hds, List.cons_append,
            gotonext_imm (f + 1) d (ds ++ '@' :: rest2) cl (goodAtomChar_not_mem_fws hd)
              (goodAtomChar_ne hd (by decide : '(' ∈ atomendsChars)),
            ← List.cons_append, ← hds]
        rw [getaddrspecLoop_atoms (b :: latoms2) (f + 1) (acc ++ [c :: a2] ++ [['.']]) cl rest2
            (fun x hx => hg x (List.mem_cons_of_mem _ hx)) (by simp)
            (by simp only [List.length_cons] at hf3 ⊢; omega)]
        simp [dotPieces]

/-- One getdomain step at a delimiter-free character: an atom is added to
the domain. -/
theorem getdomainAux_atom (f : Nat) (acc : List Char) (c : Char) (cs : List Char)
    (cl : List (List Char)) (hc : goodAtomChar c) :
    getdomainAux (f + 1) acc ⟨c :: cs, cl⟩ =
      getdomainAux f (acc ++ (getatom atomendsChars (c :: cs)).1)
        ⟨(getatom atomendsChars (c :: cs)).2, cl⟩ := by
  simp only [getdomainAux]
  rw [if_neg (goodAtomChar_not_mem_lws hc),
      if_neg (goodAtomChar_ne hc (by decide : '(' ∈ atomendsChars)),
      if_neg (goodAtomChar_ne hc (by decide : '[' ∈ atomendsChars)),
      if_neg (goodAtomChar_ne hc (by decide : '.' ∈ atomendsChars)),
      if_neg (goodAtomChar_ne hc (by decide : '@' ∈ atomendsChars)),
      if_neg (goodAtomChar_not_mem_atomends hc)]

/-- One getdomain step at a dot. -/
theorem getdomainAux_dot (f : Nat) (acc : List Char) (cs : List Char)
    (cl : List (List Char)) :
    getdomainAux (f + 1) acc ⟨'.' :: cs, cl⟩ =
      getdomainAux f (acc ++ ['.']) ⟨cs, cl⟩ := by
  simp [getdomainAux, lwsChars]

/-- getdomain stops at the closing angle bracket. -/
theorem getdomainAux_stop (f : Nat) (acc : List Char) (cs : List Char)
    (cl : List (List Char)) :
    getdomainAux (f + 1) acc ⟨'>' :: cs, cl⟩ = (acc, ⟨'>' :: cs, cl⟩) := by
  simp [getdomainAux, lwsChars, atomendsChars, specialsChars]

/-- The domain loop over a dotted run of delimiter-free atoms, stopping
at the closing angle bracket. -/
theorem getdomainAux_atoms :
    ∀ (datoms : List (List Char)) (fuel : Nat) (acc : List Char) (cl : List (List Char)),
      (∀ w ∈ datoms, goodAtom w) → datoms ≠ [] → 2 * datoms.length ≤ fuel →
      getdomainAux fuel acc ⟨dotJoin datoms ++ ['>'], cl⟩ =
        (acc ++ dotJoin datoms, ⟨['>'], cl⟩)
  | [], _, _, _, _, h0, _ => absurd rfl h0
  | [a], fuel, acc, cl, hg, _, hf => by
    obtain ⟨hne, hall⟩ := hg a (List.mem_cons_self a [])
    have hatom : getatom atomendsChars (a ++ ['>']) = (a, ['>']) := by
      apply getatom_spec
      · exact fun x hx => goodAtomChar_not_mem_atomends (hall x hx)
      · exact Or.inr ⟨'>', _, rfl, by decide⟩
    match fuel, hf with
    | f + 2, _ =>
      match a, hne, hall, hatom with
      | c :: a2, _, hall2, hatom2 =>
        have hc : goodAtomChar c := hall2 c (List.mem_cons_self c a2)
        have hatom3 : getatom atomendsChars (c :: (a2 ++ ['>'])) = (c :: a2, ['>']) := hatom2
        show getdomainAux (f + 1 + 1) acc ⟨c :: (a2 ++ ['>']), cl⟩ = _
        rw [getdomainAux_atom (f + 1) acc c _ cl hc, hatom3, getdomainAux_stop f _ [] cl]
        simp [dotJoin]
  | a :: b :: datoms2, fuel, acc, cl, hg, _, hf => by
    obtain ⟨hne, hall⟩ := hg a (List.mem_cons_self a _)
    have hrem : dotJoin (a :: b :: datoms2) ++ ['>'] =
        a ++ '.' :: (dotJoin (b :: datoms2) ++ ['>']) := by
      simp [dotJoin, List.append_assoc]
    have hatom : getatom atomendsChars (a ++ '.' :: (dotJoin (b :: datoms2) ++ ['>'])) =
        (a, '.' :: (dotJoin (b :: datoms2) ++ ['>'])) := by
      apply getatom_spec
      · exact fun x hx => goodAtomChar_not_mem_atomends (hall x hx)
      · exact Or.inr ⟨'.', _, rfl, by decide⟩
    match fuel, hf with
    | f + 3, hf3 =>
      match a, hne, hall, hatom with
      | c :: a2, _, hall2, hatom2 =>
        have hc : goodAtomChar c := hall2 c (List.mem_cons_self c a2)
        have hatom3 : getatom atomendsChars
            (c :: (a2 ++ '.' :: (dotJoin (b :: datoms2) ++ ['>']))) =
            (c :: a2, '.' :: (dotJoin (b :: datoms2) ++ ['>'])) := hatom2
        rw [hrem]
        show getdomainAux (f + 2 + 1) acc
          ⟨c :: (a2 ++ '.' :: (dotJoin (b :: datoms2) ++ ['>'])), cl⟩ = _
        rw [getdomainAux_atom (f + 2) acc c _ cl hc, hatom3,
            show f + 2 = f + 1 + 1 from rfl,
            getdomainAux_dot (f + 1) (acc ++ (c :: a2)) _ cl,
            getdomainAux_atoms (b :: datoms2) (f + 1) (acc ++ (c :: a2) ++ ['.']) cl
              (fun x hx => hg x (List.mem_cons_of_mem _ hx)) (by simp)
              (by simp only [List.length_cons] at hf3 ⊢; omega)]
        simp [dotJoin, List.append_assoc]

/-- The address tail step on an exhausted field is the identity. -/
theorem addressEnd_nil (fuel : Nat) (rl : List (List Char × List Char))
    (cl : List (List Char)) :
    addressEnd fuel rl ⟨[], cl⟩ = (rl, ⟨[], cl⟩) := by
  cases fuel with
  | zero => rfl
  | succ f => simp [addressEnd, gotonext_nil]

/-- The top-level loop on an exhausted field returns its accumulator. -/
theorem getaddrlistLoop_nil (fuel : Nat) (acc : List (List Char × List Char))
    (cl : List (List Char)) :
    getaddrlistLoop fuel acc ⟨[], cl⟩ = (acc, ⟨[], cl⟩) := by
  cases fuel <;> rfl

/-- getaddrspec on a dotted-atom local part and domain wrapped up to the
closing angle bracket: the full addr-spec is recovered. -/
theorem getaddrspec_spec (latoms datoms : List (List Char)) (fuel : Nat)
    (cl : List (List Char))
    (hl : ∀ w ∈ latoms, goodAtom w) (hl0 : latoms ≠ [])
    (hd : ∀ w ∈ datoms, goodAtom w) (hd0 : datoms ≠ [])
    (hf : 2 * latoms.length ≤ fuel ∧ 2 * datoms.length ≤ fuel) :
    getaddrspec fuel ⟨dotJoin latoms ++ '@' :: (dotJoin datoms ++ ['>']), cl⟩ =
      (dotJoin latoms ++ '@' :: dotJoin datoms, ⟨['>'], cl⟩) := by
  obtain ⟨c, cs, hcs, hc⟩ := dotJoin_head latoms hl0 hl
  obtain ⟨d, ds, hds, hdg⟩ := dotJoin_head datoms hd0 hd
  simp only [getaddrspec]
  rw [hcs, List.cons_append,
      gotonext_imm fuel c _ cl (goodAtomChar_not_mem_fws hc)
        (goodAtomChar_ne hc (by decide : '(' ∈ atomendsChars)),
      ← List.cons_append, ← hcs]
  rw [getaddrspecLoop_atoms latoms fuel [] cl (dotJoin datoms ++ ['>']) hl hl0 hf.1]
  simp only [List.nil_append]
  rw [hds, List.cons_append,
      gotonext_imm fuel d _ cl (goodAtomChar_not_mem_fws hdg)
        (goodAtomChar_ne hdg (by decide : '(' ∈ atomendsChars)),
      ← List.cons_append, ← hds]
  simp only [getdomain]
  rw [getdomainAux_atoms datoms fuel [] cl hd hd0 hf.2]
  simp only [List.nil_append]
  rw [if_neg (dotJoin_ne_nil datoms hd0 hd), flatten_dotPieces]

/-- getrouteaddr on an angle-bracketed dotted addr-spec: the addr-spec is
returned and the cursor steps past the closing bracket. -/
theorem getrouteaddr_spec (latoms datoms : List (List Char)) (fuel : Nat)
    (cl : List (List Char))
    (hl : ∀ w ∈ latoms, goodAtom w) (hl0 : latoms ≠ [])
    (hd : ∀ w ∈ datoms, goodAtom w) (hd0 : datoms ≠ [])
    (hf : 2 * latoms.length + 2 * datoms.length + 1 ≤ fuel) :
    getrouteaddr fuel ⟨'<' :: (dotJoin latoms ++ '@' :: (dotJoin datoms ++ ['>'])), cl⟩ =
      (dotJoin latoms ++ '@' :: dotJoin datoms, ⟨[], cl⟩) := by
  obtain ⟨c, cs, hcs, hc⟩ := dotJoin_head latoms hl0 hl
  simp only [getrouteaddr]
  rw [hcs, List.cons_append,
      gotonext_imm fuel c _ cl (goodAtomChar_not_mem_fws hc)
        (goodAtomChar_ne hc (by decide : '(' ∈ atomendsChars))]
  match fuel, hf with
  | f + 1, hf1 =>
    simp only [routeLoop]
    rw [if_neg (goodAtomChar_ne hc (by decide : '>' ∈ atomendsChars)),
        if_neg (goodAtomChar_ne hc (by decide : '@' ∈ atomendsChars)),
        if_neg (goodAtomChar_ne hc (by decide : ':' ∈ atomendsChars))]
    rw [show (c :: (cs ++ '@' :: (dotJoin datoms ++ ['>']))) =
        (c :: cs) ++ '@' :: (dotJoin datoms ++ ['>']) from rfl, ← hcs]
    rw [getaddrspec_spec latoms datoms f cl hl hl0 hd hd0 (by omega)]
    simp

/-- getaddress on a display name of delimiter-free words followed by an
angle-bracketed dotted addr-spec: exactly one (realname, addrspec) pair,
an exhausted field and an empty commentlist. -/
theorem getaddress_spec (words latoms datoms : List (List Char)) (fuel : Nat)
    (cl : List (List Char))
    (hw : ∀ w ∈ words, goodAtom w) (hw0 : words ≠ [])
    (hl : ∀ w ∈ latoms, goodAtom w) (hl0 : latoms ≠ [])
    (hd : ∀ w ∈ datoms, goodAtom w) (hd0 : datoms ≠ [])
    (hf : 2 * words.length + 2 * latoms.length + 2 * datoms.length + 2 ≤ fuel) :
    getaddress fuel
      ⟨joinSp words ++ ' ' :: '<' :: (dotJoin latoms ++ '@' :: (dotJoin datoms ++ ['>'])), cl⟩ =
      ([(joinSp words, dotJoin latoms ++ '@' :: dotJoin datoms)], ⟨[], []⟩) := by
  obtain ⟨c, cs, hcs, hc⟩ := joinSp_head words hw0 hw
  match fuel, hf with
  | f + 1, hf1 =>
    simp only [getaddress]
    rw [hcs, List.cons_append,
        gotonext_imm f c _ [] (goodAtomChar_not_mem_fws hc)
          (goodAtomChar_ne hc (by decide : '(' ∈ atomendsChars)),
        ← List.cons_append, ← hcs]
    rw [joinSp_sep ('<' :: (dotJoin latoms ++ '@' :: (dotJoin datoms ++ ['>']))) words hw0]
    rw [getphraselist_run words f _ [] hw (by omega)]
    rw [gotonext_imm f '<' _ [] (by decide) (by decide)]
    dsimp only
    rw [if_neg (by decide : ¬(('<' : Char) = '.' ∨ ('<' : Char) = '@')),
        if_neg (by decide : ¬('<' : Char) = ':'), if_pos (rfl : ('<' : Char) = '<')]
    rw [getrouteaddr_spec latoms datoms f [] hl hl0 hd hd0 (by omega)]
    dsimp only
    rw [if_neg (by simp : ¬(([] : List (List Char)) ≠ []))]
    rw [addressEnd_nil f _ []]

theorem toList_append (a b : String) : (a ++ b).toList = a.toList ++ b.toList := rfl

/-- One top-level loop step on a nonempty field. -/
theorem getaddrlistLoop_step (f : Nat) (acc : List (List Char × List Char)) (c : Char)
    (cs : List Char) (cl : List (List Char)) :
    getaddrlistLoop (f + 1) acc ⟨c :: cs, cl⟩ =
      getaddrlistLoop f
        (acc ++ if (getaddress f ⟨c :: cs, cl⟩).1 = [] then [([], [])]
                else (getaddress f ⟨c :: cs, cl⟩).1)
        (getaddress f ⟨c :: cs, cl⟩).2 := by
  simp only [getaddrlistLoop]

/-- parseaddr recovers exactly the display name and the addr-spec of a
Name and angle-bracketed email field built from delimiter-free atoms. -/
theorem parseaddr_good (words latoms datoms : List (List Char))
    (hw : ∀ w ∈ words, goodAtom w) (hw0 : words ≠ [])
    (hl : ∀ w ∈ latoms, goodAtom w) (hl0 : latoms ≠ [])
    (hd : ∀ w ∈ datoms, goodAtom w) (hd0 : datoms ≠ []) :
    parseaddr ((joinSp words).asString ++ " <" ++
        (dotJoin latoms ++ '@' :: dotJoin datoms).asString ++ ">") =
      ((joinSp words).asString, (dotJoin latoms ++ '@' :: dotJoin datoms).asString) := by
  have hs : ((joinSp words).asString ++ " <" ++
      (dotJoin latoms ++ '@' :: dotJoin datoms).asString ++ ">").toList =
      joinSp words ++ ' ' :: '<' :: (dotJoin latoms ++ '@' :: (dotJoin datoms ++ ['>'])) := by
    simp only [toList_append, List.toList_asString,
      show (" <" : String).toList = [' ', '<'] from rfl,
      show (">" : String).toList = ['>'] from rfl]
    simp [List.append_assoc]
  obtain ⟨c, cs, hcs, hc⟩ := joinSp_head words hw0 hw
  have hwlen := joinSp_length words (fun x hx => (hw x hx).1)
  have hllen := dotJoin_length latoms (fun x hx => (hl x hx).1)
  have hdlen := dotJoin_length datoms (fun x hx => (hd x hx).1)
  simp only [parseaddr, hs, parseFuel]
  rw [show 4 * (joinSp words ++ ' ' :: '<' ::
        (dotJoin latoms ++ '@' :: (dotJoin datoms ++ ['>']))).length + 64 =
      4 * (joinSp words ++ ' ' :: '<' ::
        (dotJoin latoms ++ '@' :: (dotJoin datoms ++ ['>']))).length + 63 + 1 from by omega]
  rw [hcs, List.cons_append, getaddrlistLoop_step, ← List.cons_append, ← hcs]
  rw [getaddress_spec words latoms datoms _ [] hw hw0 hl hl0 hd hd0 (by
    simp only [List.length_append, List.length_cons]
    omega)]
  rw [if_neg (by simp)]
  rw [getaddrlistLoop_nil]
  simp

/-- C3 (amended): the round trip holds on the delimiter-free ascii
class: for a display name of ascii words free of parser delimiters,
quotes, backslashes and whitespace, and an email of dotted runs of such
atoms, constructing the Address succeeds and formatting it back raises
nothing and reproduces the input string exactly. -/
theorem sremail_C3_amended (words latoms datoms : List (List Char))
    (hw : ∀ w ∈ words, goodAtom w) (hw0 : words ≠ [])
    (hl : ∀ w ∈ latoms, goodAtom w) (hl0 : latoms ≠ [])
    (hd : ∀ w ∈ datoms, goodAtom w) (hd0 : datoms ≠ []) :
    (Address.init ((joinSp words).asString ++ " <" ++
        (dotJoin latoms ++ '@' :: dotJoin datoms).asString ++ ">")).map Address.str =
      Except.ok (Except.ok ((joinSp words).asString ++ " <" ++
        (dotJoin latoms ++ '@' :: dotJoin datoms).asString ++ ">")) := by
  have hp := parseaddr_good words latoms datoms hw hw0 hl hl0 hd hd0
  obtain ⟨c, cs, hcs, hc⟩ := joinSp_head words hw0 hw
  have hnameNe : (joinSp words).asString ≠ "" := by
    intro h
    have h2 := congrArg String.toList h
    rw [List.toList_asString, String.toList_empty, hcs] at h2
    cases h2
  have hat : '@' ∈ ((dotJoin latoms ++ '@' :: dotJoin datoms).asString).toList := by
    rw [List.toList_asString]
    exact List.mem_append_right _ (List.mem_cons_self _ _)
  simp only [Address.init, hp]
  rw [if_neg (fun h => hnameNe h.1), if_neg (fun hno => hno hat)]
  simp only [Except.map]
  have hnospec : ∀ x ∈ ((joinSp words).asString).toList, x ∉ formataddrSpecials := by
    rw [List.toList_asString]
    intro x hx
    rcases mem_joinSp words x hx with rfl | ⟨w, hwmem, hxw⟩
    · decide
    · exact goodAtomChar_not_special ((hw w hwmem).2 x hxw)
  have hesc : escapeName ((joinSp words).asString).toList = joinSp words := by
    rw [List.toList_asString]
    apply escapeName_id
    intro x hx
    rcases mem_joinSp words x hx with rfl | ⟨w, hwmem, hxw⟩
    · exact ⟨by decide, by decide⟩
    · have hg := (hw w hwmem).2 x hxw
      exact ⟨hg.2.1, goodAtomChar_ne hg (by decide : '"' ∈ atomendsChars)⟩
  have hnameAscii : pyIsAscii ((joinSp words).asString) = true := by
    simp only [pyIsAscii, List.toList_asString, List.all_eq_true, decide_eq_true_eq]
    intro x hx
    rcases mem_joinSp words x hx with rfl | ⟨w, hwmem, hxw⟩
    · decide
    · exact goodAtomChar_ascii ((hw w hwmem).2 x hxw)
  have hemailAscii : pyIsAscii ((dotJoin latoms ++ '@' :: dotJoin datoms).asString) = true := by
    simp only [pyIsAscii, List.toList_asString, List.all_eq_true, decide_eq_true_eq]
    intro x hx
    rcases List.mem_append.mp hx with hx1 | hx2
    · rcases mem_dotJoin latoms x hx1 with rfl | ⟨w, hwmem, hxw⟩
      · decide
      · exact goodAtomChar_ascii ((hl w hwmem).2 x hxw)
    · rcases List.mem_cons.mp hx2 with rfl | hx3
      · decide
      · rcases mem_dotJoin datoms x hx3 with rfl | ⟨w, hwmem, hxw⟩
        · decide
        · exact goodAtomChar_ascii ((hd w hwmem).2 x hxw)
  simp only [Address.str, formataddr]
  rw [if_neg (by rw [hemailAscii]; exact fun hno => hno rfl)]
  rw [if_neg hnameNe]
  rw [if_neg (by rw [hnameAscii]; exact fun hno => hno rfl)]
  have hanyf : (((joinSp words).asString).toList.any
      fun ch => decide (ch ∈ formataddrSpecials)) = false :=
    List.any_eq_false.mpr (fun x hx => by simpa using hnospec x hx)
  have hq : ¬((((joinSp words).asString).toList.any
      fun ch => decide (ch ∈ formataddrSpecials)) = true) := by
    rw [hanyf]
    simp
  rw [if_neg hq]
  rw [hesc]
  simp

/-- C3 counterexample: a dotted display name parses successfully but is
re-quoted by formataddr, so the round trip changes the string. -/
theorem sremail_C3_counterexample :
    Address.init "J. Doe <jd@example.com>" = .ok ⟨"J. Doe", "jd@example.com"⟩ ∧
    Address.str ⟨"J. Doe", "jd@example.com"⟩ = .ok "\"J. Doe\" <jd@example.com>" ∧
    "\"J. Doe\" <jd@example.com>" ≠ "J. Doe <jd@example.com>" :=
  ⟨rfl, rfl, by decide⟩

/-- C3 witness: the round trip at a concrete delimiter-free field. -/
theorem sremail_C3_witness :
    (Address.init "Sam Gibson <sgibson@glasswallsolutions.com>").map Address.str =
      Except.ok (Except.ok "Sam Gibson <sgibson@glasswallsolutions.com>") := by
  have h := sremail_C3_amended
    [['S','a','m'], ['G','i','b','s','o','n']]
    [['s','g','i','b','s','o','n']]
    [['g','l','a','s','s','w','a','l','l','s','o','l','u','t','i','o','n','s'], ['c','o','m']]
    (by decide) (by decide) (by decide) (by decide) (by decide) (by decide)
  exact h
